import Mathlib

/-!
Verification of the scrollback / rendered-window core of the neovide renderer.

The Rust sources embedded here are:
* `src/renderer/scrollback_buffer.rs` (`ScrollbackBuffer`),
* `src/renderer/rendered_window.rs` (`RenderedWindow` and its draw-command
  handling, `flush`, `prepare_lines`, `get_target_position`).

Machine floats (`f64`/`f32`) are modelled by `ℚ`: the code only uses them
through exact operations (`floor`, comparison, addition, negation, `clamp`),
which coincide on the rationals actually reachable in the statements below.
Rust `usize`/`isize` indices are modelled by `Nat`/`Int`.
-/

namespace Neovide

/-- The half-open integer range `[a, b)` as a list, in increasing order
(Rust `a..b` over `isize`). Empty when `b ≤ a`. -/
def intRange (a b : Int) : List Int :=
  (List.range (b - a).toNat).map (fun t : Nat => a + (t : Int))

/-- `Vec::swap i j`, used by `scroll_internal`.  The Rust call panics when an
index is out of bounds; the loop in `scroll_internal` only produces in-range
indices, so out-of-range inputs (which keep the list unchanged here) are never
reached from the embedded code. -/
def listSwap {α : Type} (l : List α) (i j : Nat) : List α :=
  match l.get? i, l.get? j with
  | some a, some b => (l.set i b).set j a
  | _, _ => l

/-- One step bound for the binary-search loops below: `left`/`right` pincer
with explicit fuel so the definition is structural (the fuel
`l.length + 1` always suffices because `right - left` shrinks every step). -/
def partitionPointGo {α : Type} (l : List α) (pred : α → Bool) :
    Nat → Nat → Nat → Nat
  | 0, left, _ => left
  | fuel + 1, left, right =>
    if left < right then
      let mid := (left + right) / 2
      match l.get? mid with
      | some a =>
        if pred a then partitionPointGo l pred fuel (mid + 1) right
        else partitionPointGo l pred fuel left mid
      | none => left
    else left

/-- Rust `partition_point` (as used on `VecDeque`): the binary search from the
standard library, probing `pred` and returning the final `left` bound. -/
def partition_point {α : Type} (l : List α) (pred : α → Bool) : Nat :=
  partitionPointGo l pred (l.length + 1) 0 l.length

/-- Rust `binary_search_by_key` on a `VecDeque<(isize, L)>`, comparing keys
with `Int` order; returns the probed index on an exact key match (`Ok`),
`none` otherwise (`Err`). Fuel as in `partitionPointGo`. -/
def binarySearchGo {L : Type} (l : List (Int × L)) (key : Int) :
    Nat → Nat → Nat → Option Nat
  | 0, _, _ => none
  | fuel + 1, left, right =>
    if left < right then
      let mid := (left + right) / 2
      match l.get? mid with
      | some a =>
        if a.1 < key then binarySearchGo l key fuel (mid + 1) right
        else if key < a.1 then binarySearchGo l key fuel left mid
        else some mid
      | none => none
    else none

/-- `binary_search_by_key(&virtual_line, |line| line.0)`. -/
def binary_search_by_key {L : Type} (l : List (Int × L)) (key : Int) :
    Option Nat :=
  binarySearchGo l key (l.length + 1) 0 l.length

/-- `ScrollbackBuffer<LineType>` from `src/renderer/scrollback_buffer.rs`:
`actual_lines: Vec<Option<LineType>>`, `scrollback_lines: VecDeque<(isize,
LineType)>`, `actual_position: isize`, `scroll_position: f64`. -/
structure ScrollbackBuffer (L : Type) where
  actual_lines : List (Option L)
  scrollback_lines : List (Int × L)
  actual_position : Int
  scroll_position : ℚ
  deriving Repr

namespace ScrollbackBuffer

variable {L : Type}

/-- `ScrollbackBuffer::new(size)`. -/
def new (L : Type) (size : Nat) : ScrollbackBuffer L :=
  { actual_lines := List.replicate size none
    scrollback_lines := []
    actual_position := 0
    scroll_position := 0 }

/-- `get_scroll_delta`: `(scroll_position - actual_position as f64) as f32`. -/
def get_scroll_delta (b : ScrollbackBuffer L) : ℚ :=
  b.scroll_position - (b.actual_position : ℚ)

/-- `get_scroll_offset`: `prev_line - delta` where `prev_line = delta.floor()`. -/
def get_scroll_offset (b : ScrollbackBuffer L) : ℚ :=
  (⌊b.get_scroll_delta⌋ : ℚ) - b.get_scroll_delta

/-- The body of the `scroll_internal` loop: `for y in y_iter { let dest_y =
(y - rows) as usize; self.actual_lines.swap(dest_y, y as usize); }`. -/
def swapFold (rows : Int) (y_iter : List Int) (ls : List (Option L)) :
    List (Option L) :=
  y_iter.foldl (fun l y => listSwap l (y - rows).toNat y.toNat) ls

/-- `ScrollbackBuffer::scroll_internal(top, bottom, rows)`: swap rows of a
sub-range, iterating `top+rows..bottom` upward for `rows > 0` and
`(top..bottom+rows).rev()` otherwise, swapping `y - rows` with `y`. -/
def scroll_internal (b : ScrollbackBuffer L) (top bottom : Nat) (rows : Int) :
    ScrollbackBuffer L :=
  let y_iter : List Int :=
    if 0 < rows then intRange ((top : Int) + rows) bottom
    else (intRange top ((bottom : Int) + rows)).reverse
  { b with actual_lines := swapFold rows y_iter b.actual_lines }

/-- `cleanup_scrollback`: drop scrollback entries outside
`[first_valid, last_valid]` with the two `drain`/`partition_point` calls. -/
def cleanup_scrollback (b : ScrollbackBuffer L) : ScrollbackBuffer L :=
  let fl : Int × Int :=
    if b.scroll_position ≤ (b.actual_position : ℚ) then
      (⌊b.scroll_position⌋, b.actual_position - 1)
    else
      (b.actual_position + b.actual_lines.length,
        ⌊b.scroll_position⌋ + b.actual_lines.length)
  let l1 := b.scrollback_lines.drop
    (partition_point b.scrollback_lines (fun line => decide (line.1 < fl.1)))
  { b with
    scrollback_lines :=
      l1.take (partition_point l1 (fun line => decide (fl.2 < line.1))) }

/-- `ScrollbackBuffer::scroll(rows)`: advance `actual_position`, clean up the
scrollback, then (for `|rows| < len`) extend the scrollback with the rows that
are about to be overwritten (skipping `None` lines), at the back when
scrolling down and at the front when scrolling up. -/
def scroll (b : ScrollbackBuffer L) (rows : Int) : ScrollbackBuffer L :=
  let prev_position := b.actual_position
  let b1 := { b with actual_position := b.actual_position + rows }
  let b2 := cleanup_scrollback b1
  if rows.natAbs < b2.actual_lines.length then
    if 0 < rows then
      if (match b2.scrollback_lines.getLast? with
          | none => true
          | some v => decide (v.1 < b2.actual_position)) then
        let source := b2.actual_lines.take rows.toNat
        { b2 with
          scrollback_lines := b2.scrollback_lines ++
            source.enum.filterMap (fun p =>
              p.2.map (fun pic => (prev_position + (p.1 : Int), pic))) }
      else b2
    else
      if (match b2.scrollback_lines.head? with
          | none => true
          | some v => decide (b2.actual_position < v.1)) then
        let source := b2.actual_lines.reverse.take (-rows).toNat
        { b2 with
          scrollback_lines :=
            (source.enum.filterMap (fun p =>
              p.2.map (fun pic =>
                (prev_position + (b2.actual_lines.length : Int) - (p.1 : Int)
                  - 1, pic)))).reverse ++ b2.scrollback_lines }
      else b2
  else b2

/-- `get_visible_line(index)`: take the row from `actual_lines` when the
virtual line falls inside the actual window, else binary-search the
scrollback by virtual position, else `None`. -/
def get_visible_line [Inhabited L] (b : ScrollbackBuffer L) (index : Nat) :
    Option L :=
  let start_virtual_line : Int := ⌊b.scroll_position⌋
  let virtual_line := start_virtual_line + (index : Int)
  let offset := virtual_line - b.actual_position
  if 0 ≤ offset ∧ offset < (b.actual_lines.length : Int) then
    b.actual_lines.getD offset.toNat none
  else
    match binary_search_by_key b.scrollback_lines virtual_line with
    | some i => some (b.scrollback_lines.getD i (0, default)).2
    | none => none

end ScrollbackBuffer

/-- The buffer of the `scroll_down` unit test: height 5 seeded `[1,2,3,4,5]`,
then `scroll(2)`, `scroll_internal(0,5,2)`, rows 3 and 4 refilled with 6, 7. -/
def exampleBuffer : ScrollbackBuffer Int :=
  let b : ScrollbackBuffer Int :=
    { actual_lines := [some 1, some 2, some 3, some 4, some 5]
      scrollback_lines := []
      actual_position := 0
      scroll_position := 0 }
  let b := b.scroll 2
  let b := b.scroll_internal 0 5 2
  { b with actual_lines := (b.actual_lines.set 3 (some 6)).set 4 (some 7) }

/-- A buffer freshly in sync at position `p`, whose row `j` shows the content
`f (p + j)` (`f` assigns a distinct marker to every virtual line). -/
def seedBuffer (H : Nat) (p : Int) (f : Int → Int) : ScrollbackBuffer Int :=
  { actual_lines := (List.range H).map (fun j : Nat => some (f (p + (j : Int))))
    scrollback_lines := []
    actual_position := p
    scroll_position := (p : ℚ) }

/-- The rows vacated by an internal scroll of `rows`: the bottom `rows` rows
when scrolling down, the top `-rows` rows when scrolling up. -/
def vacatedRows (H : Nat) (rows : Int) : List Nat :=
  if 0 < rows then (List.range rows.toNat).map (fun t : Nat => H - rows.toNat + t)
  else List.range rows.natAbs

/-- Refill the rows vacated by `scroll_internal` with the continuation of the
content, as the protocol's subsequent `DrawLine` commands do. -/
def refillVacated (H : Nat) (p rows : Int) (f : Int → Int)
    (b : ScrollbackBuffer Int) : ScrollbackBuffer Int :=
  { b with
    actual_lines :=
      (vacatedRows H rows).foldl
        (fun ls j => ls.set j (some (f (p + rows + (j : Int)))))
        b.actual_lines }

/-- The generic scroll scenario of the claim: seed at position `p`, run
`scroll rows` and `scroll_internal 0 H rows`, then refill the vacated rows
with the continuation of the content. -/
def scrolledBuffer (H : Nat) (p rows : Int) (f : Int → Int) :
    ScrollbackBuffer Int :=
  refillVacated H p rows f
    (((seedBuffer H p f).scroll rows).scroll_internal 0 H rows)

/-- The scrollback contents `scroll` produces from the seeded buffer: the
`rows` rows about to scroll off the top (down-scroll), or the `-rows` rows
about to scroll off the bottom (up-scroll), keyed by virtual position. -/
def scrollbackAfter (H : Nat) (p rows : Int) (f : Int → Int) :
    List (Int × Int) :=
  if 0 < rows then
    (List.range rows.toNat).map
      (fun i : Nat => (p + (i : Int), f (p + (i : Int))))
  else
    (List.range rows.natAbs).map
      (fun i : Nat => (p + rows + H + (i : Int), f (p + rows + H + (i : Int))))

/-! ### The `RenderedWindow` model (`src/renderer/rendered_window.rs`)

`RingBuffer` (`crate::utils`) and `CriticallyDampedSpringAnimation`
(`renderer::animation_utils`) are not among the sources at hand — only their
uses are — so they are modelled from the spec (§3, §4.1, §4.4).  The
`GridRenderer` entry points called by `prepare_lines` are likewise modelled
from the spec (§4.3): the `grid_renderer.rs` at hand is an unfinished variant
whose `draw_background`/`draw_foreground` signatures do not match the calls
in `rendered_window.rs`.  Everything else is translated from
`rendered_window.rs` itself.  The `Rc<RefCell<Line>>` sharing is modelled by
a line store (`lines : List Line`) with the ring buffers holding indices into
it. -/

/-- Modelled from the spec (§3, §4.1): `RingBuffer<T>` — fixed logical length
backed by a physical array with a rotating base offset; logical index `i`
maps to physical slot `(base + i) mod len`; `rotate k` shifts the base;
`resize` resets the rotation to zero. -/
structure RingBuffer (α : Type) where
  data : List α
  base : Nat
  deriving Repr, DecidableEq

namespace RingBuffer

variable {α : Type}

/-- `RingBuffer::new(len, default)`. -/
def new (len : Nat) (d : α) : RingBuffer α := ⟨List.replicate len d, 0⟩

/-- The logical (= physical) length. -/
def len (rb : RingBuffer α) : Nat := rb.data.length

/-- The physical slot of logical index `i` (modular arithmetic, so negative
and out-of-range logical indices wrap). -/
def physIdx (rb : RingBuffer α) (i : Int) : Nat :=
  (((rb.base : Int) + i) % (rb.len : Int)).toNat

/-- Indexed read. -/
def get [Inhabited α] (rb : RingBuffer α) (i : Int) : α :=
  rb.data.getD (rb.physIdx i) default

/-- Indexed write. -/
def set (rb : RingBuffer α) (i : Int) (v : α) : RingBuffer α :=
  { rb with data := rb.data.set (rb.physIdx i) v }

/-- `rotate(k)`: O(1) logical shift of the base offset. -/
def rotate (rb : RingBuffer α) (k : Int) : RingBuffer α :=
  if rb.len = 0 then rb
  else { rb with base := (((rb.base : Int) + k) % (rb.len : Int)).toNat }

/-- The buffer in logical order. -/
def toList [Inhabited α] (rb : RingBuffer α) : List α :=
  (List.range rb.len).map (fun i : Nat => rb.get i)

/-- `resize(new_len, default)`: keep a prefix of the logical content, pad
with the default, and reset the rotation to zero. -/
def resize [Inhabited α] (rb : RingBuffer α) (n : Nat) (d : α) : RingBuffer α :=
  ⟨rb.toList.take n ++ List.replicate (n - rb.len) d, 0⟩

/-- `iter_range(a..b)` over arbitrary (wrapping) logical ranges. -/
def iter_range [Inhabited α] (rb : RingBuffer α) (a b : Int) : List α :=
  (intRange a b).map (fun i => rb.get i)

/-- `clone_from_iter(source)`: overwrite logical slots `0..` from `source`. -/
def clone_from_iter (rb : RingBuffer α) (src : List α) : RingBuffer α :=
  src.enum.foldl (fun acc q => acc.set (q.1 : Int) q.2) rb

/-- `iter_mut().for_each(|line| *line = v)` (used by `Clear`). -/
def setAll (rb : RingBuffer α) (v : α) : RingBuffer α :=
  { rb with data := rb.data.map (fun _ => v) }

end RingBuffer

/-- Modelled from the spec (§4.4, §3): the critically damped spring scroll
animation.  Only the field the embedded code reads and writes (`position`)
is modelled; `reset` puts it back to exactly 0. -/
structure CriticallyDampedSpringAnimation where
  position : ℚ
  deriving Repr, DecidableEq

/-- `CriticallyDampedSpringAnimation::reset`. -/
def CriticallyDampedSpringAnimation.reset
    (_s : CriticallyDampedSpringAnimation) : CriticallyDampedSpringAnimation :=
  { position := 0 }

/-- One entry of `Style::infos` as read by the border heuristic. -/
structure HighlightInfo where
  ui_name : String
  hi_name : String
  deriving Repr, DecidableEq

/-- Modelled from the spec (§4.3) and the `editor::style` collaborator (not
among the sources at hand): the style fields the embedded code reads.
`custom_background` stands for "this style paints a background different
from the default". -/
structure Style where
  infos : List HighlightInfo
  custom_background : Bool
  blend : Nat
  underline : Bool
  strikethrough : Bool
  deriving Repr, DecidableEq

/-- `LineFragment` (text run of one row). -/
structure LineFragment where
  text : String
  window_left : Nat
  width : Nat
  style : Option Style
  deriving Repr, DecidableEq

/-- A recorded picture; modelled as the fragments that were recorded, which
is enough to compare cached pictures for identity. -/
structure Picture where
  content : List LineFragment
  deriving Repr, DecidableEq

/-- The per-row cache record `Line`. -/
structure Line where
  line_fragments : List LineFragment
  background_picture : Option Picture
  foreground_picture : Option Picture
  has_transparency : Bool
  is_inferred_border : Bool
  is_valid : Bool
  deriving Repr, DecidableEq

/-- `ViewportMargins`. -/
structure ViewportMargins where
  top : Nat
  bottom : Nat
  inferred : Bool
  deriving Repr, DecidableEq

/-- The window-type tag; only "is it a message window" is ever inspected. -/
inductive WindowType where
  | editor
  | message
  deriving Repr, DecidableEq

/-- The settings fields the embedded code reads. -/
structure RendererSettings where
  scroll_animation_far_lines : Nat
  debug_renderer : Bool
  deriving Repr, DecidableEq

/-- What `GridRenderer::draw_background` reports per fragment. -/
structure BackgroundInfo where
  custom_color : Bool
  transparent : Bool
  deriving Repr, DecidableEq

/-- Modelled from the spec (§4.3): the background pass draws a cell only when
its style paints a non-default background, or always in debug-random mode;
the drawn background is transparent when the style blends. -/
def draw_background (settings : RendererSettings) (style : Option Style) :
    BackgroundInfo :=
  let custom := settings.debug_renderer ||
    (match style with
     | some st => st.custom_background
     | none => false)
  { custom_color := custom
    transparent := custom &&
      (match style with
       | some st => decide (0 < st.blend)
       | none => false) }

/-- Modelled from the spec (§4.3): the foreground pass draws the
whitespace-trimmed text plus underline/strikethrough decorations and reports
whether anything was drawn; an all-whitespace fragment with no decoration
draws nothing. -/
def draw_foreground (fragment : LineFragment) : Bool :=
  fragment.text.toList.any (fun c => !c.isWhitespace) ||
    (match fragment.style with
     | some st => st.underline || st.strikethrough
     | none => false)

/-- `f32::EPSILON = 2⁻²³` (as `mkRat` so the kernel can evaluate it; the
field division `1 / 2 ^ 23` does not reduce definitionally). -/
def f32Epsilon : ℚ := mkRat 1 8388608

/-- `f32::abs` (kernel-reducible, unlike the lattice `|·|`). -/
def ratAbs (q : ℚ) : ℚ := if q < 0 then -q else q

/-- `f32::min` (kernel-reducible, unlike the lattice `min`). -/
def ratMin (a b : ℚ) : ℚ := if a ≤ b then a else b

/-- `f32::max` (kernel-reducible, unlike the lattice `max`). -/
def ratMax (a b : ℚ) : ℚ := if a ≤ b then b else a

/-- `f64::round`: round half away from zero. -/
def rustRound (q : ℚ) : Int :=
  if 0 ≤ q then ⌊q + mkRat 1 2⌋ else ⌈q - mkRat 1 2⌉

/-- The grid rectangle passed to `get_target_position`
(`GridRect<f32>` with `min`/`max` corner points). -/
structure GridRect where
  min_x : ℚ
  min_y : ℚ
  max_x : ℚ
  max_y : ℚ
  deriving Repr, DecidableEq

/-- `WindowDrawCommand` (the fields the handler reads). -/
inductive WindowDrawCommand where
  | position (grid_position : ℚ × ℚ) (grid_size : Nat × Nat)
      (anchor_info : Option Unit) (window_type : WindowType)
  | draw_line (row : Nat) (line_fragments : List LineFragment)
  | scroll (top bottom left right : Nat) (rows cols : Int)
  | clear
  | show
  | hide
  | close
  | viewport (scroll_delta : ℚ)
  | viewport_margins (top bottom left right : Nat)
  deriving Repr, DecidableEq

/-- `RenderedWindow`; the `Rc<RefCell<Line>>` heap is the `lines` store and
the ring buffers hold `Option` indices into it. -/
structure RenderedWindow where
  id : Nat
  hidden : Bool
  anchor_info : Option Unit
  window_type : WindowType
  grid_width : Nat
  grid_height : Nat
  scrollback_lines : RingBuffer (Option Nat)
  actual_lines : RingBuffer (Option Nat)
  scroll_delta : Int
  viewport_margins : ViewportMargins
  grid_start_position : ℚ × ℚ
  grid_current_position : ℚ × ℚ
  grid_destination : ℚ × ℚ
  position_t : ℚ
  scroll_animation : CriticallyDampedSpringAnimation
  has_transparency : Bool
  lines : List Line
  deriving Repr, DecidableEq

namespace RenderedWindow

/-- `RenderedWindow::new(id, grid_position, grid_size)`. -/
def new (id : Nat) (grid_position : ℚ × ℚ) (grid_size : Nat × Nat) :
    RenderedWindow :=
  { id
    hidden := false
    anchor_info := none
    window_type := WindowType.editor
    grid_width := grid_size.1
    grid_height := grid_size.2
    actual_lines := RingBuffer.new grid_size.2 none
    scrollback_lines := RingBuffer.new (2 * grid_size.2) none
    scroll_delta := 0
    viewport_margins := { top := 0, bottom := 0, inferred := true }
    grid_start_position := grid_position
    grid_current_position := grid_position
    grid_destination := grid_position
    position_t := 2
    scroll_animation := { position := 0 }
    has_transparency := false
    lines := [] }

/-- `check_border(fragment, check)` from the `DrawLine` handler: test the
last highlight info of the fragment's style. -/
def checkBorderFragment (fragment : LineFragment) (check : String → Bool) :
    Bool :=
  match fragment.style with
  | none => false
  | some style =>
    match style.infos.getLast? with
    | none => false
    | some info => check info.ui_name || check info.hi_name

/-- `float_border` highlight-group names. -/
def isFloatBorder (s : String) : Bool :=
  s == "FloatBorder" || s == "FloatTitle" || s == "FloatFooter"

/-- `winbar` highlight-group names. -/
def isWinbar (s : String) : Bool :=
  s == "WinBar" || s == "WinBarNC"

/-- Dereference a ring-buffer slot in the line store
(`Rc<RefCell<Line>>::borrow`). -/
def lineAt (w : RenderedWindow) (slot : Option Nat) : Option Line :=
  match slot with
  | none => none
  | some i => w.lines.get? i

/-- `RenderedWindow::get_target_position(grid_rect)`. -/
def get_target_position (w : RenderedWindow) (grid_rect : GridRect) : ℚ × ℚ :=
  let destination : ℚ × ℚ :=
    (w.grid_destination.1 + grid_rect.min_x,
      w.grid_destination.2 + grid_rect.min_y)
  if w.anchor_info = none then destination
  else
    let grid_w : ℚ := (w.grid_width : ℚ)
    let grid_h : ℚ :=
      if w.window_type = WindowType.message then
        (w.grid_height : ℚ) - w.grid_destination.2
      else (w.grid_height : ℚ)
    let x := ratMax (ratMin destination.1 (grid_rect.max_x - grid_w))
      grid_rect.min_x
    let y0 := ratMin destination.2 (grid_rect.max_y - grid_h)
    let y :=
      if w.window_type ≠ WindowType.message then ratMax y0 grid_rect.min_y
      else y0
    (x, y)

/-- `RenderedWindow::handle_window_draw_command`. -/
def handle_window_draw_command (w : RenderedWindow)
    (draw_command : WindowDrawCommand) : RenderedWindow :=
  match draw_command with
  | WindowDrawCommand.position grid_position grid_size anchor_info window_type =>
    let w :=
      if w.grid_destination ≠ grid_position then
        if f32Epsilon < ratAbs w.grid_start_position.1
            ∨ f32Epsilon < ratAbs w.grid_start_position.2 then
          { w with
            position_t := 0
            grid_start_position := w.grid_current_position
            grid_destination := grid_position }
        else
          { w with
            position_t := 2
            grid_start_position := grid_position
            grid_destination := grid_position }
      else w
    let height := grid_size.2
    let w := { w with
      actual_lines := w.actual_lines.resize height none
      grid_width := grid_size.1
      grid_height := height }
    let w := { w with
      scrollback_lines :=
        (w.scrollback_lines.resize (2 * height) none).clone_from_iter
          w.actual_lines.toList
      scroll_delta := 0 }
    -- `if height != self.actual_lines.len()` right after the resize to
    -- `height`: always false, the reset is dead code but kept faithfully.
    let w :=
      if height ≠ w.actual_lines.len then
        { w with scroll_animation := w.scroll_animation.reset }
      else w
    let w := { w with anchor_info := anchor_info, window_type := window_type }
    if w.hidden then
      { w with
        hidden := false
        position_t := 2
        grid_start_position := grid_position
        grid_destination := grid_position }
    else w
  | WindowDrawCommand.draw_line row line_fragments =>
    let line : Line :=
      { line_fragments
        background_picture := none
        foreground_picture := none
        has_transparency := false
        is_inferred_border := false
        is_valid := false }
    let line :=
      if w.viewport_margins.inferred then
        let ib := line.line_fragments.all
          (fun fr => checkBorderFragment fr isFloatBorder)
        let ib := ib || line.line_fragments.any
          (fun fr => checkBorderFragment fr isWinbar)
        { line with is_inferred_border := ib }
      else line
    { w with
      lines := w.lines ++ [line]
      actual_lines := w.actual_lines.set (row : Int) (some w.lines.length) }
  | WindowDrawCommand.scroll top bottom left right rows cols =>
    if top = 0 ∧ bottom = w.grid_height ∧ left = 0 ∧ right = w.grid_width
        ∧ cols = 0 then
      { w with actual_lines := w.actual_lines.rotate rows }
    else w
  | WindowDrawCommand.clear =>
    { w with
      scroll_delta := 0
      scrollback_lines := w.scrollback_lines.setAll none
      scroll_animation := w.scroll_animation.reset }
  | WindowDrawCommand.show =>
    if w.hidden then
      { w with
        hidden := false
        position_t := 2
        grid_start_position := w.grid_destination
        scroll_animation := w.scroll_animation.reset }
    else w
  | WindowDrawCommand.hide => { w with hidden := true }
  | WindowDrawCommand.viewport scroll_delta =>
    { w with scroll_delta := rustRound scroll_delta }
  | WindowDrawCommand.viewport_margins top bottom _ _ =>
    { w with viewport_margins := { top, bottom, inferred := false } }
  | WindowDrawCommand.close => w

/-- `infer_viewport_margins`: count the leading and trailing inferred-border
rows of `actual_lines` (only when margins are in inferred mode). -/
def infer_viewport_margins (w : RenderedWindow) : RenderedWindow :=
  if w.viewport_margins.inferred then
    let lst := w.actual_lines.toList.map w.lineAt
    let isBorder : Option Line → Bool := fun ol =>
      match ol with
      | some l => l.is_inferred_border
      | none => false
    let top := (lst.takeWhile isBorder).length
    let bottom := (((lst.drop top).reverse).takeWhile isBorder).length
    { w with
      viewport_margins :=
        { top, bottom, inferred := w.viewport_margins.inferred } }
  else w

/-- `RenderedWindow::flush`.  Returns `none` on the two `usize`-subtraction
panics that out-of-range explicit margins can trigger
(`actual_lines.len() - bottom` and `scrollback_lines.len() - grid height`). -/
def flush (w : RenderedWindow) (renderer_settings : RendererSettings) :
    Option RenderedWindow :=
  let w := w.infer_viewport_margins
  if w.actual_lines.len < w.viewport_margins.bottom then none
  else
    let inner_lo : Int := (w.viewport_margins.top : Int)
    let inner_hi : Int :=
      ((w.actual_lines.len - w.viewport_margins.bottom : Nat) : Int)
    let inner_size : Nat := (inner_hi - inner_lo).toNat
    let inner_view := w.actual_lines.iter_range inner_lo inner_hi
    if inner_size ≠ w.scrollback_lines.len / 2 then
      some { w with
        scrollback_lines :=
          (w.scrollback_lines.resize (2 * inner_size) none).clone_from_iter
            inner_view
        scroll_delta := 0
        scroll_animation := w.scroll_animation.reset }
    else
      let scroll_delta := w.scroll_delta
      let w := { w with
        scrollback_lines :=
          (w.scrollback_lines.rotate scroll_delta).clone_from_iter inner_view }
      if scroll_delta ≠ 0 then
        if w.scrollback_lines.len < w.grid_height then none
        else
          let max_delta := w.scrollback_lines.len - w.grid_height
          if max_delta < scroll_delta.natAbs then
            let far_lines : Int :=
              (min renderer_settings.scroll_animation_far_lines
                w.actual_lines.len : Nat)
            let scroll_offset : ℚ := -(((far_lines * scroll_delta.sign) : Int) : ℚ)
            let empty_lines : List Int :=
              if 0 < scroll_delta then intRange (-far_lines) 0
              else intRange (w.actual_lines.len : Int)
                ((w.actual_lines.len : Int) + far_lines)
            some { w with
              scrollback_lines :=
                empty_lines.foldl (fun rb i => rb.set i none)
                  w.scrollback_lines
              scroll_animation := { position := scroll_offset }
              scroll_delta := 0 }
          else
            let scroll_offset := w.scroll_animation.position - (scroll_delta : ℚ)
            let scroll_offset :=
              ratMax (-(max_delta : ℚ)) (ratMin scroll_offset (max_delta : ℚ))
            some { w with
              scroll_animation := { position := scroll_offset }
              scroll_delta := 0 }
      else some { w with scroll_delta := 0 }

/-- The body of `prepare_lines`' per-line closure `prepare_line`: rebuild an
invalid line's cached pictures (background picture only when some fragment
drew a custom background, foreground picture only when something was drawn)
and mark it valid; leave valid lines untouched. -/
def prepare_line (settings : RendererSettings) (line : Line) : Line :=
  if line.is_valid then line
  else
    let custom_background := line.line_fragments.any
      (fun fr => (draw_background settings fr.style).custom_color)
    let has_transparency := line.line_fragments.any
      (fun fr => (draw_background settings fr.style).transparent)
    let foreground_drawn := line.line_fragments.any
      (fun fr => draw_foreground fr)
    { line with
      background_picture :=
        if custom_background then some { content := line.line_fragments }
        else none
      foreground_picture :=
        if foreground_drawn then some { content := line.line_fragments }
        else none
      has_transparency
      is_valid := true }

/-- The slots `prepare_lines` visits, in visiting order: the animated scroll
window of the scrollback (when non-empty) plus the top and bottom margin
rows of `actual_lines`. -/
def prepareVisitedSlots (w : RenderedWindow) : List (Option Nat) :=
  let scroll_offset_lines : Int := ⌊w.scroll_animation.position⌋
  let height : Int := (w.grid_height : Int)
  (if w.scrollback_lines.len ≠ 0 then
      w.scrollback_lines.iter_range scroll_offset_lines
        (scroll_offset_lines + height + 1)
    else [])
  ++ w.actual_lines.iter_range 0 (w.viewport_margins.top : Int)
  ++ w.actual_lines.iter_range
      ((w.actual_lines.len : Int) - (w.viewport_margins.bottom : Int))
      (w.actual_lines.len : Int)

/-- Apply `prepare_line` through the store to each visited slot in order. -/
def foldPrepare (settings : RendererSettings) (slots : List (Option Nat))
    (store : List Line) : List Line :=
  slots.foldl
    (fun st slot =>
      match slot with
      | none => st
      | some i =>
        match st.get? i with
        | none => st
        | some l => st.set i (prepare_line settings l))
    store

/-- `RenderedWindow::prepare_lines`. -/
def prepare_lines (settings : RendererSettings) (w : RenderedWindow) :
    RenderedWindow :=
  if w.grid_height = 0 then w
  else
    { w with lines := foldPrepare settings (prepareVisitedSlots w) w.lines }

end RenderedWindow

/-- One step of the per-window protocol: either a draw command or a `flush`
with the settings snapshot of that frame. -/
inductive WindowEvent where
  | cmd (c : WindowDrawCommand)
  | flush (settings : RendererSettings)

/-- Run one event (`none` models a panic inside `flush`). -/
def execEvent (w : RenderedWindow) (e : WindowEvent) :
    Option RenderedWindow :=
  match e with
  | WindowEvent.cmd c => some (w.handle_window_draw_command c)
  | WindowEvent.flush s => w.flush s

/-- Run a sequence of events. -/
def execEvents (w : RenderedWindow) : List WindowEvent → Option RenderedWindow
  | [] => some w
  | e :: rest =>
    match execEvent w e with
    | none => none
    | some w2 => execEvents w2 rest

/-- The anchored window of the floating-placement example: width 12 on a
10-wide grid. -/
def c6Window : RenderedWindow :=
  { RenderedWindow.new 4 (0, 0) (12, 5) with anchor_info := some () }

/-- The grid rectangle of the floating-placement example. -/
def c6Rect : GridRect := { min_x := 0, min_y := 0, max_x := 10, max_y := 10 }

/-- The settings used by concrete examples. -/
def exSettings : RendererSettings := ⟨1, false⟩

/-- An invalid line holding a single all-whitespace unstyled fragment. -/
def wsLine : Line := ⟨[⟨"   ", 0, 3, none⟩], none, none, false, false, false⟩

/-- The window of the far-scroll example: height 10, explicit margins 2/2,
scrollback 12, pending delta 3. -/
def c2Window : RenderedWindow :=
  { RenderedWindow.new 6 (0, 0) (8, 10) with
      scrollback_lines := RingBuffer.new 12 none
      scroll_delta := 3
      viewport_margins := ⟨2, 2, false⟩ }

/-- Settings of the far-scroll example: `scroll_animation_far_lines = 3`. -/
def c2Settings : RendererSettings := ⟨3, false⟩

/-- The command sequence of the margin-change example. -/
def c3Events : List WindowEvent :=
  [WindowEvent.cmd (WindowDrawCommand.viewport_margins 1 1 0 0)]

/-- The state after the margin-change example run. -/
def c3Result : RenderedWindow :=
  (execEvents (RenderedWindow.new 9 (0, 0) (8, 5))
      (c3Events ++ [WindowEvent.flush exSettings])).getD
    (RenderedWindow.new 9 (0, 0) (8, 5))

/-- The window of the partial-height scroll example: a fresh 8×5 window with
one row drawn (so a rotation of `actual_lines` is observable). -/
def c4Window : RenderedWindow :=
  (RenderedWindow.new 4 (0, 0) (8, 5)).handle_window_draw_command
    (WindowDrawCommand.draw_line 0 wsLine.line_fragments)

section RingBufferLemmas

variable {α : Type}

@[simp]
theorem RingBuffer.len_new (n : Nat) (d : α) : (RingBuffer.new n d).len = n := by
  simp [RingBuffer.new, RingBuffer.len]

@[simp]
theorem RingBuffer.len_set (rb : RingBuffer α) (i : Int) (v : α) :
    (rb.set i v).len = rb.len := by
  simp [RingBuffer.set, RingBuffer.len]

@[simp]
theorem RingBuffer.len_rotate (rb : RingBuffer α) (k : Int) :
    (rb.rotate k).len = rb.len := by
  unfold RingBuffer.rotate
  split <;> rfl

@[simp]
theorem RingBuffer.len_setAll (rb : RingBuffer α) (v : α) :
    (rb.setAll v).len = rb.len := by
  simp [RingBuffer.setAll, RingBuffer.len]

@[simp]
theorem RingBuffer.length_toList [Inhabited α] (rb : RingBuffer α) :
    rb.toList.length = rb.len := by
  simp [RingBuffer.toList]

@[simp]
theorem RingBuffer.len_resize [Inhabited α] (rb : RingBuffer α) (n : Nat)
    (d : α) : (rb.resize n d).len = n := by
  simp [RingBuffer.resize, RingBuffer.len, RingBuffer.toList]
  omega

@[simp]
theorem RingBuffer.len_clone_from_iter (rb : RingBuffer α) (src : List α) :
    (rb.clone_from_iter src).len = rb.len := by
  have hgen : ∀ (l : List (Nat × α)) (rb : RingBuffer α),
      (l.foldl (fun acc q => acc.set ((q.1 : Nat) : Int) q.2) rb).len
        = rb.len := by
    intro l
    induction l with
    | nil => intro rb; rfl
    | cons q rest ih =>
      intro rb
      rw [List.foldl_cons, ih, RingBuffer.len_set]
  exact hgen src.enum rb

@[simp]
theorem RingBuffer.length_iter_range [Inhabited α] (rb : RingBuffer α)
    (a b : Int) : (rb.iter_range a b).length = (b - a).toNat := by
  simp [RingBuffer.iter_range, intRange]

end RingBufferLemmas

section ListHelpers

variable {α : Type}

theorem intRange_succ_right {a b : Int} (h : a ≤ b) :
    intRange a (b + 1) = intRange a b ++ [b] := by
  unfold intRange
  have h1 : (b + 1 - a).toNat = (b - a).toNat + 1 := by omega
  rw [h1, List.range_succ, List.map_append]
  simp only [List.map_cons, List.map_nil]
  have h2 : a + ((b - a).toNat : Int) = b := by omega
  rw [h2]

theorem take_map_range (g : Nat → α) {m H : Nat} (h : m ≤ H) :
    ((List.range H).map g).take m = (List.range m).map g := by
  rw [← List.map_take, List.take_range, Nat.min_eq_left h]

theorem reverse_map_range (g : Nat → α) (H : Nat) :
    ((List.range H).map g).reverse = (List.range H).map (fun j => g (H - 1 - j)) := by
  apply List.ext_getElem?
  intro j
  by_cases hj : j < H
  · rw [List.getElem?_reverse (by simpa using hj)]
    simp only [List.length_map, List.length_range, List.getElem?_map]
    rw [List.getElem?_range (by omega), List.getElem?_range hj]
    rfl
  · rw [List.getElem?_eq_none (by simpa using Nat.le_of_not_lt hj),
      List.getElem?_eq_none (by simpa using Nat.le_of_not_lt hj)]

theorem enum_map_range (g : Nat → α) (m : Nat) :
    ((List.range m).map g).enum = (List.range m).map (fun i => (i, g i)) := by
  rw [List.enum_map, List.enum_eq_zip_range, List.length_range]
  have h : (List.range m).zip (List.range m) = (List.range m).map (fun i => (i, i)) := by
    have := List.zip_map' (id : Nat → Nat) (id : Nat → Nat) (List.range m)
    simpa using this
  rw [h, List.map_map]
  rfl

/-- Writing a value-per-index function over a list of indices: every listed
in-range index reads back the written value, everything else is untouched. -/
theorem foldl_set_getElem? (v : Nat → α) :
    ∀ (idxs : List Nat) (ls : List α) (j : Nat),
      (idxs.foldl (fun l i => l.set i (v i)) ls)[j]?
        = if j ∈ idxs then (if j < ls.length then some (v j) else none)
          else ls[j]? := by
  intro idxs
  induction idxs with
  | nil => intro ls j; simp
  | cons i rest ih =>
    intro ls j
    rw [List.foldl_cons, ih (ls.set i (v i)) j]
    by_cases hjr : j ∈ rest
    · rw [if_pos hjr, if_pos (List.mem_cons_of_mem i hjr)]
      simp [List.length_set]
    · rw [if_neg hjr, List.getElem?_set]
      by_cases hij : i = j
      · subst hij
        rw [if_pos rfl, if_pos (List.mem_cons_self i rest)]
      · rw [if_neg hij]
        have : ¬ j ∈ i :: rest := by
          intro hmem
          rcases List.mem_cons.mp hmem with h | h
          · exact hij h.symm
          · exact hjr h
        rw [if_neg this]

end ListHelpers

section SwapLoop

variable {L : Type} {α : Type}

theorem listSwap_length (l : List α) (i j : Nat) :
    (listSwap l i j).length = l.length := by
  unfold listSwap
  cases hi : l.get? i <;> cases hj : l.get? j <;> simp

theorem listSwap_getElem? (l : List α) {i j : Nat} (k : Nat)
    (hi : i < l.length) (hj : j < l.length) :
    (listSwap l i j)[k]? =
      if k = i then l[j]? else if k = j then l[i]? else l[k]? := by
  have ha : l.get? i = some (l.get ⟨i, hi⟩) := List.get?_eq_get hi
  have hb : l.get? j = some (l.get ⟨j, hj⟩) := List.get?_eq_get hj
  have hai : l[i]? = some (l.get ⟨i, hi⟩) := by
    rw [← List.get?_eq_getElem?]; exact ha
  have hbj : l[j]? = some (l.get ⟨j, hj⟩) := by
    rw [← List.get?_eq_getElem?]; exact hb
  unfold listSwap
  rw [ha, hb]
  dsimp only
  rw [List.getElem?_set, List.getElem?_set, List.length_set]
  by_cases hkj : k = j <;> by_cases hki : k = i
  · rw [if_pos hkj.symm, if_pos (hkj ▸ hj), if_pos hki, hbj]
    subst hki
    subst hkj
    rfl
  · rw [if_pos hkj.symm, if_pos (hkj ▸ hj), if_neg hki, if_pos hkj, hai]
  · rw [if_neg (fun h => hkj h.symm), if_pos hki.symm, if_pos (hki ▸ hi),
      if_pos hki, hbj]
  · rw [if_neg (fun h => hkj h.symm), if_neg (fun h => hki h.symm),
      if_neg hki, if_neg hkj]

theorem swapFold_nil (rows : Int) (ls : List (Option L)) :
    ScrollbackBuffer.swapFold rows [] ls = ls := rfl

theorem swapFold_cons (rows y : Int) (ys : List Int) (ls : List (Option L)) :
    ScrollbackBuffer.swapFold rows (y :: ys) ls
      = ScrollbackBuffer.swapFold rows ys
          (listSwap ls (y - rows).toNat y.toNat) := rfl

theorem swapFold_append_one (rows y : Int) (ys : List Int)
    (ls : List (Option L)) :
    ScrollbackBuffer.swapFold rows (ys ++ [y]) ls
      = listSwap (ScrollbackBuffer.swapFold rows ys ls)
          (y - rows).toNat y.toNat := by
  unfold ScrollbackBuffer.swapFold
  rw [List.foldl_append]
  rfl

theorem swapFold_length (rows : Int) (ys : List Int) (ls : List (Option L)) :
    (ScrollbackBuffer.swapFold rows ys ls).length = ls.length := by
  induction ys generalizing ls with
  | nil => rfl
  | cons y rest ih =>
    rw [swapFold_cons, ih, listSwap_length]

/-- The `rows > 0` branch of the `scroll_internal` loop over the full range:
each kept row `j < c` ends up holding what row `j + r` held, rows past the
loop are untouched. -/
theorem swapFold_pos (r : Nat) (hr : 0 < r) :
    ∀ (c : Nat) (ls : List (Option L)), r + c ≤ ls.length →
      (∀ j : Nat, j < c →
          (ScrollbackBuffer.swapFold r (intRange r ((r : Int) + (c : Int))) ls)[j]?
            = ls[j + r]?)
      ∧ (∀ j : Nat, r + c ≤ j →
          (ScrollbackBuffer.swapFold r (intRange r ((r : Int) + (c : Int))) ls)[j]?
            = ls[j]?) := by
  intro c
  induction c with
  | zero =>
    intro ls _
    have h0 : intRange r ((r : Int) + ((0 : Nat) : Int)) = [] := by
      simp [intRange]
    rw [h0]
    exact ⟨fun j hj => absurd hj (by omega), fun j _ => rfl⟩
  | succ c ih =>
    intro ls hlen
    have hc1 : ((c + 1 : Nat) : Int) = (c : Int) + 1 := by push_cast; ring
    have hstep : intRange r ((r : Int) + ((c + 1 : Nat) : Int))
        = intRange r ((r : Int) + (c : Int)) ++ [(r : Int) + (c : Int)] := by
      rw [hc1, ← add_assoc, intRange_succ_right (by omega)]
    obtain ⟨ihkept, ihrest⟩ := ih ls (by omega)
    have ihlen :
        (ScrollbackBuffer.swapFold r (intRange r ((r : Int) + (c : Int))) ls).length
          = ls.length := swapFold_length _ _ _
    have hidx1 : (((r : Int) + (c : Int)) - (r : Int)).toNat = c := by omega
    have hidx2 : ((r : Int) + (c : Int)).toNat = r + c := by omega
    have hmid : ∀ k : Nat,
        (ScrollbackBuffer.swapFold r
            (intRange r ((r : Int) + ((c + 1 : Nat) : Int))) ls)[k]?
          = if k = c then
              (ScrollbackBuffer.swapFold r (intRange r ((r : Int) + (c : Int))) ls)[r + c]?
            else if k = r + c then
              (ScrollbackBuffer.swapFold r (intRange r ((r : Int) + (c : Int))) ls)[c]?
            else
              (ScrollbackBuffer.swapFold r (intRange r ((r : Int) + (c : Int))) ls)[k]? := by
      intro k
      rw [hstep, swapFold_append_one, hidx1, hidx2,
        listSwap_getElem? _ k (by omega) (by omega)]
    constructor
    · intro j hj
      rw [hmid j]
      by_cases hjc : j = c
      · subst hjc
        rw [if_pos rfl, ihrest (r + j) (le_refl _), Nat.add_comm r j]
      · rw [if_neg hjc, if_neg (by omega), ihkept j (by omega)]
    · intro j hj
      rw [hmid j, if_neg (by omega), if_neg (by omega), ihrest j (by omega)]

/-- The `rows ≤ 0` branch of the `scroll_internal` loop over the full range
(`m = -rows`): each kept row `j ≥ m` ends up holding what row `j - m` held,
rows past the loop are untouched. -/
theorem swapFold_neg (m : Nat) :
    ∀ (c : Nat) (ls : List (Option L)), m + c ≤ ls.length →
      (∀ j : Nat, m ≤ j → j < m + c →
          (ScrollbackBuffer.swapFold (-(m : Int))
            ((intRange 0 (c : Int)).reverse) ls)[j]?
            = ls[j - m]?)
      ∧ (∀ j : Nat, m + c ≤ j →
          (ScrollbackBuffer.swapFold (-(m : Int))
            ((intRange 0 (c : Int)).reverse) ls)[j]?
            = ls[j]?) := by
  intro c
  induction c with
  | zero =>
    intro ls _
    have h0 : intRange 0 ((0 : Nat) : Int) = [] := by simp [intRange]
    rw [h0, List.reverse_nil]
    exact ⟨fun j h1 h2 => absurd h2 (by omega), fun j _ => rfl⟩
  | succ c ih =>
    intro ls hlen
    have hc1 : ((c + 1 : Nat) : Int) = (c : Int) + 1 := by push_cast; ring
    have hstep : (intRange 0 ((c + 1 : Nat) : Int)).reverse
        = (c : Int) :: (intRange 0 (c : Int)).reverse := by
      rw [hc1, intRange_succ_right (by omega), List.reverse_append,
        List.reverse_singleton]
      rfl
    have hidx1 : ((c : Int) - -(m : Int)).toNat = c + m := by omega
    have hidx2 : ((c : Int)).toNat = c := by omega
    have hs : ∀ k : Nat, (listSwap ls (c + m) c)[k]?
        = if k = c + m then ls[c]? else if k = c then ls[c + m]? else ls[k]? :=
      fun k => listSwap_getElem? ls k (by omega) (by omega)
    have hslen : (listSwap ls (c + m) c).length = ls.length :=
      listSwap_length _ _ _
    obtain ⟨ihkept, ihrest⟩ := ih (listSwap ls (c + m) c) (by omega)
    have hunfold :
        ScrollbackBuffer.swapFold (-(m : Int))
            ((intRange 0 ((c + 1 : Nat) : Int)).reverse) ls
          = ScrollbackBuffer.swapFold (-(m : Int))
              ((intRange 0 (c : Int)).reverse) (listSwap ls (c + m) c) := by
      rw [hstep, swapFold_cons, hidx1, hidx2]
    constructor
    · intro j hj1 hj2
      rw [hunfold]
      by_cases hjc : j = m + c
      · subst hjc
        rw [ihrest (m + c) (le_refl _), hs, if_pos (by omega)]
        congr 1
        omega
      · rw [ihkept j hj1 (by omega), hs, if_neg (by omega), if_neg (by omega)]
    · intro j hj
      rw [hunfold, ihrest j (by omega), hs,
        if_neg (by omega), if_neg (by omega)]

end SwapLoop

theorem cleanup_scrollback_empty {L : Type} (b : ScrollbackBuffer L)
    (h : b.scrollback_lines = []) :
    ScrollbackBuffer.cleanup_scrollback b = b := by
  cases b
  simp_all [ScrollbackBuffer.cleanup_scrollback, partition_point, partitionPointGo]

theorem scrollback_build_pos (H : Nat) (p : Int) (f : Int → Int) (n : Nat)
    (hn : n ≤ H) :
    List.filterMap
      (fun q : Nat × Option Int =>
        Option.map (fun pic => (p + (q.1 : Int), pic)) q.2)
      ((((List.range H).map (fun j : Nat => some (f (p + (j : Int))))).take n).enum)
    = (List.range n).map (fun i : Nat => (p + (i : Int), f (p + (i : Int)))) := by
  rw [take_map_range _ hn, enum_map_range, List.filterMap_map]
  have hcomp : ((fun q : Nat × Option Int =>
        Option.map (fun pic => (p + (q.1 : Int), pic)) q.2)
      ∘ (fun i : Nat => ((i : Nat), some (f (p + (i : Int))))))
      = some ∘ (fun i : Nat => (p + (i : Int), f (p + (i : Int)))) := by
    funext i; rfl
  rw [hcomp, List.filterMap_eq_map]

theorem scrollback_build_neg (H : Nat) (p : Int) (f : Int → Int) (m : Nat)
    (hm : m ≤ H) :
    (List.filterMap
      (fun q : Nat × Option Int =>
        Option.map (fun pic => (p + (H : Int) - (q.1 : Int) - 1, pic)) q.2)
      ((((List.range H).map (fun j : Nat => some (f (p + (j : Int))))).reverse.take m).enum)).reverse
    = (List.range m).map
        (fun j : Nat => (p + (H : Int) - (m : Int) + (j : Int),
          f (p + (H : Int) - (m : Int) + (j : Int)))) := by
  rw [reverse_map_range, take_map_range _ hm, enum_map_range, List.filterMap_map]
  have hcomp : ((fun q : Nat × Option Int =>
        Option.map (fun pic => (p + (H : Int) - (q.1 : Int) - 1, pic)) q.2)
      ∘ (fun i : Nat => ((i : Nat), some (f (p + ((H - 1 - i : Nat) : Int))))))
      = some ∘ (fun i : Nat => (p + (H : Int) - (i : Int) - 1,
          f (p + ((H - 1 - i : Nat) : Int)))) := by
    funext i; rfl
  rw [hcomp, List.filterMap_eq_map, reverse_map_range]
  apply List.map_congr_left
  intro j hj
  have hj' : j < m := List.mem_range.mp hj
  have h1 : p + (H : Int) - ((m - 1 - j : Nat) : Int) - 1
      = p + (H : Int) - (m : Int) + (j : Int) := by omega
  have h2 : p + ((H - 1 - (m - 1 - j) : Nat) : Int)
      = p + (H : Int) - (m : Int) + (j : Int) := by omega
  rw [h1, h2]

/-- `scroll` on the freshly seeded buffer: the actual rows are untouched, the
position advances by `rows`, and the rows about to be overwritten are stashed
in the scrollback, keyed by their virtual positions. -/
theorem seed_scroll (H : Nat) (p rows : Int) (f : Int → Int)
    (h : rows.natAbs < H) :
    (seedBuffer H p f).scroll rows =
      { actual_lines := (seedBuffer H p f).actual_lines
        scrollback_lines := scrollbackAfter H p rows f
        actual_position := p + rows
        scroll_position := (p : ℚ) } := by
  simp only [ScrollbackBuffer.scroll, seedBuffer]
  have hc := cleanup_scrollback_empty (L := Int)
    { actual_lines := (List.range H).map (fun j : Nat => some (f (p + (j : Int))))
      scrollback_lines := []
      actual_position := p + rows
      scroll_position := (p : ℚ) } rfl
  simp only [hc, List.length_map, List.length_range]
  rw [if_pos h]
  by_cases hpos : 0 < rows
  · rw [if_pos hpos]
    dsimp only [List.getLast?_nil]
    rw [if_pos rfl]
    congr 1
    rw [List.nil_append, scrollback_build_pos H p f rows.toNat (by omega)]
    rw [scrollbackAfter, if_pos hpos]
  · rw [if_neg hpos]
    dsimp only [List.head?_nil]
    rw [if_pos rfl]
    congr 1
    rw [List.append_nil]
    have hm : (-rows).toNat = rows.natAbs := by omega
    rw [hm, scrollback_build_neg H p f rows.natAbs (le_of_lt h)]
    rw [scrollbackAfter, if_neg hpos]
    apply List.map_congr_left
    intro j hj
    have hj' : j < rows.natAbs := List.mem_range.mp hj
    have h1 : p + (H : Int) - (rows.natAbs : Int) + (j : Int)
        = p + rows + (H : Int) + (j : Int) := by omega
    rw [h1]

theorem foldl_set_length {α : Type} (v : Nat → α) :
    ∀ (idxs : List Nat) (ls : List α),
      (idxs.foldl (fun l i => l.set i (v i)) ls).length = ls.length := by
  intro idxs
  induction idxs with
  | nil => intro ls; rfl
  | cons i rest ih =>
    intro ls
    rw [List.foldl_cons, ih, List.length_set]

/-- The generic scroll scenario fully characterised: after `scroll rows`,
`scroll_internal` and the refill, row `j` of `actual_lines` shows
`f (p + rows + j)`, and the scrollback holds exactly the stashed rows. -/
theorem scrolledBuffer_spec (H : Nat) (p rows : Int) (f : Int → Int)
    (h : rows.natAbs < H) :
    (scrolledBuffer H p rows f).actual_position = p + rows
    ∧ (scrolledBuffer H p rows f).scroll_position = (p : ℚ)
    ∧ (scrolledBuffer H p rows f).scrollback_lines = scrollbackAfter H p rows f
    ∧ (scrolledBuffer H p rows f).actual_lines.length = H
    ∧ (∀ j : Nat, j < H →
        (scrolledBuffer H p rows f).actual_lines[j]?
          = some (some (f (p + rows + (j : Int))))) := by
  have hmain : scrolledBuffer H p rows f =
      { actual_lines := (vacatedRows H rows).foldl
          (fun l (j : Nat) => l.set j (some (f (p + rows + (j : Int)))))
          (ScrollbackBuffer.swapFold rows
            (if 0 < rows then intRange ((((0 : Nat) : Int)) + rows) ((H : Nat) : Int)
             else (intRange (((0 : Nat) : Nat) : Int) (((H : Nat) : Int) + rows)).reverse)
            ((List.range H).map (fun j : Nat => some (f (p + (j : Int))))))
        scrollback_lines := scrollbackAfter H p rows f
        actual_position := p + rows
        scroll_position := (p : ℚ) } := by
    rw [scrolledBuffer, seed_scroll H p rows f h]
    simp only [refillVacated, ScrollbackBuffer.scroll_internal, seedBuffer]
  rw [hmain]
  refine ⟨rfl, rfl, rfl, ?_, ?_⟩
  · simp only [foldl_set_length, swapFold_length, List.length_map, List.length_range]
  · intro j hj
    by_cases hpos : 0 < rows
    · simp only [if_pos hpos]
      rw [show rows = ((rows.toNat : Nat) : Int) from by omega]
      simp only [Nat.cast_zero, zero_add]
      have hH : ((H : Nat) : Int)
          = ((rows.toNat : Nat) : Int) + ((H - rows.toNat : Nat) : Int) := by omega
      rw [hH]
      obtain ⟨hkept, hrest⟩ := swapFold_pos rows.toNat (by omega) (H - rows.toNat)
        ((List.range H).map (fun j : Nat => some (f (p + (j : Int)))))
        (by simp only [List.length_map, List.length_range]; omega)
      rw [foldl_set_getElem?]
      have hlen : (ScrollbackBuffer.swapFold (((rows.toNat : Nat) : Int))
          (intRange ((rows.toNat : Nat) : Int)
            (((rows.toNat : Nat) : Int) + ((H - rows.toNat : Nat) : Int)))
          ((List.range H).map (fun j : Nat => some (f (p + (j : Int)))))).length = H := by
        simp only [swapFold_length, List.length_map, List.length_range]
      have hmem : j ∈ vacatedRows H ((rows.toNat : Nat) : Int) ↔ H - rows.toNat ≤ j := by
        simp only [vacatedRows, if_pos (show (0 : Int) < ((rows.toNat : Nat) : Int) by omega),
          Int.toNat_natCast, List.mem_map, List.mem_range]
        constructor
        · rintro ⟨t, ht, rfl⟩; omega
        · intro hle; exact ⟨j - (H - rows.toNat), by omega, by omega⟩
      by_cases hjv : H - rows.toNat ≤ j
      · rw [if_pos (hmem.mpr hjv), if_pos (by rw [hlen]; exact hj)]
      · rw [if_neg (fun hmm => hjv (hmem.mp hmm)), hkept j (by omega)]
        rw [List.getElem?_map, List.getElem?_range (by omega)]
        have harg : p + ((j + rows.toNat : Nat) : Int)
            = p + ((rows.toNat : Nat) : Int) + (j : Int) := by omega
        rw [Option.map_some', harg]
    · have hmneg : rows = -((rows.natAbs : Nat) : Int) := by omega
      simp only [if_neg hpos]
      rw [hmneg]
      simp only [Nat.cast_zero]
      have hH : ((H : Nat) : Int) + -((rows.natAbs : Nat) : Int)
          = ((H - rows.natAbs : Nat) : Int) := by omega
      rw [hH]
      obtain ⟨hkept, hrest⟩ := swapFold_neg rows.natAbs (H - rows.natAbs)
        ((List.range H).map (fun j : Nat => some (f (p + (j : Int)))))
        (by simp only [List.length_map, List.length_range]; omega)
      rw [foldl_set_getElem?]
      have hlen : (ScrollbackBuffer.swapFold (-((rows.natAbs : Nat) : Int))
          ((intRange 0 ((H - rows.natAbs : Nat) : Int)).reverse)
          ((List.range H).map (fun j : Nat => some (f (p + (j : Int)))))).length = H := by
        simp only [swapFold_length, List.length_map, List.length_range]
      have hmem : j ∈ vacatedRows H (-((rows.natAbs : Nat) : Int)) ↔ j < rows.natAbs := by
        have : ¬ (0 : Int) < -((rows.natAbs : Nat) : Int) := by omega
        simp only [vacatedRows, if_neg this, Int.natAbs_neg, List.mem_range]
        omega
      by_cases hjv : j < rows.natAbs
      · rw [if_pos (hmem.mpr hjv), if_pos (by rw [hlen]; exact hj)]
      · rw [if_neg (fun hmm => hjv (hmem.mp hmm)),
          hkept j (by omega) (by omega)]
        rw [List.getElem?_map, List.getElem?_range (by omega)]
        have harg : p + ((j - rows.natAbs : Nat) : Int)
            = p + -((rows.natAbs : Nat) : Int) + (j : Int) := by omega
        rw [Option.map_some', harg]


/-- A successful binary search only answers on an exact key match: the element
at the returned index carries exactly the searched key. -/
theorem binarySearchGo_some {L : Type} (l : List (Int × L)) (key : Int) :
    ∀ (fuel left right i : Nat), binarySearchGo l key fuel left right = some i →
      ∃ a, l.get? i = some a ∧ a.1 = key := by
  intro fuel
  induction fuel with
  | zero => intro _ _ _ h; simp [binarySearchGo] at h
  | succ n ih =>
    intro left right i h
    simp only [binarySearchGo] at h
    by_cases hlr : left < right
    · rw [if_pos hlr] at h
      cases hm : l.get? ((left + right) / 2) with
      | none => rw [hm] at h; exact absurd h (by simp)
      | some a =>
        rw [hm] at h
        dsimp only at h
        by_cases h1 : a.1 < key
        · rw [if_pos h1] at h; exact ih _ _ _ h
        · rw [if_neg h1] at h
          by_cases h2 : key < a.1
          · rw [if_pos h2] at h; exact ih _ _ _ h
          · rw [if_neg h2] at h
            obtain rfl : (left + right) / 2 = i := Option.some.inj h
            exact ⟨a, hm, by omega⟩
    · rw [if_neg hlr] at h; exact absurd h (by simp)

/-- As `binarySearchGo_some`, stated for the wrapper. -/
theorem binary_search_by_key_some {L : Type} {l : List (Int × L)} {key : Int}
    {i : Nat} (h : binary_search_by_key l key = some i) :
    ∃ a, l.get? i = some a ∧ a.1 = key :=
  binarySearchGo_some l key _ _ _ _ h

/-- C5 counterexample: in the `scroll_down` test state (`scroll_position = 0`,
height 5), the virtual row 6 requested by `get_visible_line 6` lies outside
`[⌊scroll_position⌋, ⌊scroll_position⌋ + 5]`, yet the call returns `some 7`
(the content genuinely stored at virtual position 6 in `actual_lines`), not
`None` as the claim requires. -/
theorem get_visible_line_outside_window_counterexample :
    ⌊exampleBuffer.scroll_position⌋ + (exampleBuffer.actual_lines.length : Int) < 6
    ∧ exampleBuffer.get_visible_line 6 = some 7 := by
  constructor
  · decide
  · decide

/-- C5 (amended): `get_visible_line` never returns stale content: whenever it
returns a line, that line is stored at exactly the requested virtual position
— either in `actual_lines` at offset `virtual - actual_position`, or as a
scrollback entry whose recorded virtual position equals the requested one.
Requests outside both are answered with `none`, never with a panic. -/
theorem get_visible_line_no_stale_content
    (b : ScrollbackBuffer Int) (index : Nat) (l : Int)
    (h : b.get_visible_line index = some l) :
    (0 ≤ ⌊b.scroll_position⌋ + (index : Int) - b.actual_position
      ∧ ⌊b.scroll_position⌋ + (index : Int) - b.actual_position
          < (b.actual_lines.length : Int)
      ∧ b.actual_lines.getD
          (⌊b.scroll_position⌋ + (index : Int) - b.actual_position).toNat none
          = some l)
    ∨ (∃ i : Nat, b.scrollback_lines.get? i
        = some (⌊b.scroll_position⌋ + (index : Int), l)) := by
  simp only [ScrollbackBuffer.get_visible_line] at h
  by_cases hc : 0 ≤ ⌊b.scroll_position⌋ + (index : Int) - b.actual_position
      ∧ ⌊b.scroll_position⌋ + (index : Int) - b.actual_position
          < (b.actual_lines.length : Int)
  · rw [if_pos hc] at h
    exact Or.inl ⟨hc.1, hc.2, h⟩
  · rw [if_neg hc] at h
    cases hb : binary_search_by_key b.scrollback_lines
        (⌊b.scroll_position⌋ + (index : Int)) with
    | none => rw [hb] at h; exact absurd h (by simp)
    | some i =>
      rw [hb] at h
      dsimp only at h
      obtain ⟨a, hget, hkey⟩ := binary_search_by_key_some hb
      refine Or.inr ⟨i, ?_⟩
      have hlen : i < b.scrollback_lines.length := List.get?_eq_some.mp hget |>.1
      have hgd : b.scrollback_lines.getD i (0, default) = a := by
        rw [List.getD_eq_getElem?_getD, ← List.get?_eq_getElem?, hget]
        rfl
      rw [hgd] at h
      obtain rfl : a.2 = l := Option.some.inj h
      rw [hget, ← hkey]

/-- C10: the fractional part of `scroll_position` never changes which logical
row `get_visible_line` selects — for `scroll_position = n + f` with
`0 ≤ f < 1` every lookup agrees with `scroll_position = n` — while
`get_scroll_offset` absorbs exactly the fraction `f`. -/
theorem get_visible_line_fractional_invariant
    (b : ScrollbackBuffer Int) (n : Int) (f : ℚ) (i : Nat)
    (h0 : 0 ≤ f) (h1 : f < 1) :
    ScrollbackBuffer.get_visible_line { b with scroll_position := (n : ℚ) + f } i
      = ScrollbackBuffer.get_visible_line { b with scroll_position := (n : ℚ) } i
    ∧ ScrollbackBuffer.get_scroll_offset { b with scroll_position := (n : ℚ) + f }
      = ScrollbackBuffer.get_scroll_offset { b with scroll_position := (n : ℚ) }
          - f := by
  have hf0 : ⌊f⌋ = 0 := Int.floor_eq_zero_iff.mpr ⟨h0, h1⟩
  have hfloor : ⌊(n : ℚ) + f⌋ = n := by rw [Int.floor_int_add, hf0, add_zero]
  constructor
  · simp only [ScrollbackBuffer.get_visible_line, hfloor, Int.floor_intCast]
  · simp only [ScrollbackBuffer.get_scroll_offset, ScrollbackBuffer.get_scroll_delta]
    have h2 : (n : ℚ) + f - (b.actual_position : ℚ)
        = ((n - b.actual_position : Int) : ℚ) + f := by push_cast; ring
    have h3 : (n : ℚ) - (b.actual_position : ℚ)
        = ((n - b.actual_position : Int) : ℚ) := by push_cast; ring
    rw [h2, h3, Int.floor_int_add, hf0, Int.floor_intCast]
    push_cast
    ring

/-- Witness for `get_visible_line_no_stale_content` at the test state. -/
theorem get_visible_line_no_stale_content_witness :
    (0 ≤ ⌊exampleBuffer.scroll_position⌋ + (6 : Int) - exampleBuffer.actual_position
      ∧ ⌊exampleBuffer.scroll_position⌋ + (6 : Int) - exampleBuffer.actual_position
          < (exampleBuffer.actual_lines.length : Int)
      ∧ exampleBuffer.actual_lines.getD
          (⌊exampleBuffer.scroll_position⌋ + (6 : Int)
            - exampleBuffer.actual_position).toNat none
          = some 7)
    ∨ (∃ i : Nat, exampleBuffer.scrollback_lines.get? i
        = some (⌊exampleBuffer.scroll_position⌋ + (6 : Int), 7)) :=
  get_visible_line_no_stale_content exampleBuffer 6 7 (by decide)

/-- Witness for `get_visible_line_fractional_invariant` at `n = 1`,
`f = 1/2` on the test state. -/
theorem get_visible_line_fractional_invariant_witness :
    ScrollbackBuffer.get_visible_line
        { exampleBuffer with scroll_position := (1 : ℚ) + 1/2 } 0
      = ScrollbackBuffer.get_visible_line
        { exampleBuffer with scroll_position := ((1 : Int) : ℚ) } 0
    ∧ ScrollbackBuffer.get_scroll_offset
        { exampleBuffer with scroll_position := (1 : ℚ) + 1/2 }
      = ScrollbackBuffer.get_scroll_offset
        { exampleBuffer with scroll_position := ((1 : Int) : ℚ) } - 1/2 :=
  get_visible_line_fractional_invariant exampleBuffer 1 (1/2) 0
    (by norm_num) (by norm_num)

theorem binarySearchGo_find {L : Type} (l : List (Int × L)) (base : Int)
    (hkeys : ∀ (i : Nat) (a : Int × L), l.get? i = some a → a.1 = base + (i : Int))
    (t : Nat) :
    ∀ (fuel left right : Nat), left ≤ t → t < right → right ≤ l.length →
      right - left ≤ fuel →
      ∃ i, binarySearchGo l (base + (t : Int)) fuel left right = some i := by
  intro fuel
  induction fuel with
  | zero => intro left right h1 h2 h3 h4; omega
  | succ n ih =>
    intro left right h1 h2 h3 h4
    have hlr : left < right := by omega
    simp only [binarySearchGo, if_pos hlr]
    have hmidlt : (left + right) / 2 < l.length := by omega
    have ha : l.get? ((left + right) / 2)
        = some (l.get ⟨(left + right) / 2, hmidlt⟩) := List.get?_eq_get hmidlt
    rw [ha]
    dsimp only
    have hka : (l.get ⟨(left + right) / 2, hmidlt⟩).1
        = base + (((left + right) / 2 : Nat) : Int) := hkeys _ _ ha
    by_cases hlt : (l.get ⟨(left + right) / 2, hmidlt⟩).1 < base + (t : Int)
    · rw [if_pos hlt]
      have hmt : (left + right) / 2 < t := by omega
      exact ih ((left + right) / 2 + 1) right (by omega) h2 h3 (by omega)
    · rw [if_neg hlt]
      by_cases hgt : base + (t : Int) < (l.get ⟨(left + right) / 2, hmidlt⟩).1
      · rw [if_pos hgt]
        have htm : t < (left + right) / 2 := by omega
        exact ih left ((left + right) / 2) h1 htm (by omega) (by omega)
      · rw [if_neg hgt]
        exact ⟨(left + right) / 2, rfl⟩

theorem binary_search_by_key_find {L : Type} (l : List (Int × L)) (base : Int)
    (hkeys : ∀ (i : Nat) (a : Int × L), l.get? i = some a → a.1 = base + (i : Int))
    (t : Nat) (ht : t < l.length) :
    ∃ i, binary_search_by_key l (base + (t : Int)) = some i :=
  binarySearchGo_find l base hkeys t (l.length + 1) 0 l.length
    (by omega) ht (le_refl _) (by omega)


theorem keyedList_get? (n : Nat) (base : Int) (f : Int → Int) (idx : Nat)
    (a : Int × Int)
    (hga : ((List.range n).map
        (fun i : Nat => (base + (i : Int), f (base + (i : Int))))).get? idx
      = some a) :
    idx < n ∧ a = (base + (idx : Int), f (base + (idx : Int))) := by
  rw [List.get?_eq_getElem?, List.getElem?_map] at hga
  by_cases hidx : idx < n
  · rw [List.getElem?_range hidx] at hga
    exact ⟨hidx, (Option.some.inj hga).symm⟩
  · rw [List.getElem?_eq_none (by simpa using Nat.le_of_not_lt hidx)] at hga
    exact absurd hga (by simp)

theorem scrolledBuffer_lookup_old (H : Nat) (p rows : Int) (f : Int → Int)
    (h : rows.natAbs < H) (i : Nat) (hi : i < H) :
    (scrolledBuffer H p rows f).get_visible_line i = some (f (p + (i : Int))) := by
  obtain ⟨hpos', hsp, hsb, hlen, hact⟩ := scrolledBuffer_spec H p rows f h
  simp only [ScrollbackBuffer.get_visible_line, hsp, hpos', hlen, Int.floor_intCast]
  by_cases hoff : 0 ≤ p + (i : Int) - (p + rows)
      ∧ p + (i : Int) - (p + rows) < (H : Int)
  · rw [if_pos hoff]
    rw [List.getD_eq_getElem?_getD,
      hact (p + (i : Int) - (p + rows)).toNat (by omega)]
    simp only [Option.getD_some]
    have harg : p + rows + (((p + (i : Int) - (p + rows)).toNat : Nat) : Int)
        = p + (i : Int) := by omega
    rw [harg]
  · rw [if_neg hoff, hsb]
    by_cases hpos : 0 < rows
    · -- down-scroll: row comes from the stashed history at the back
      rw [scrollbackAfter, if_pos hpos]
      have hilt : i < rows.toNat := by omega
      have hkeys : ∀ (idx : Nat) (a : Int × Int),
          ((List.range rows.toNat).map
            (fun i : Nat => (p + (i : Int), f (p + (i : Int))))).get? idx = some a →
          a.1 = p + (idx : Int) :=
        fun idx a hga => by rw [(keyedList_get? _ _ _ _ _ hga).2]
      obtain ⟨idx, hfind⟩ := binary_search_by_key_find _ p hkeys i
        (by simpa using hilt)
      rw [hfind]
      dsimp only
      obtain ⟨a, hget, hkey⟩ := binary_search_by_key_some hfind
      obtain ⟨hidx, ha⟩ := keyedList_get? _ _ _ _ _ hget
      have hgd : ((List.range rows.toNat).map
          (fun i : Nat => (p + (i : Int), f (p + (i : Int))))).getD idx (0, default)
          = a := by
        rw [List.getD_eq_getElem?_getD, ← List.get?_eq_getElem?, hget]
        rfl
      rw [hgd, ha]
      have : p + (idx : Int) = p + (i : Int) := by
        rw [ha] at hkey
        exact hkey
      rw [this]
    · -- up-scroll: row comes from the stashed history at the front
      rw [scrollbackAfter, if_neg hpos]
      have hige : H - rows.natAbs ≤ i := by omega
      have ht : i - (H - rows.natAbs) < rows.natAbs := by omega
      have hkeys : ∀ (idx : Nat) (a : Int × Int),
          ((List.range rows.natAbs).map
            (fun i : Nat => (p + rows + (H : Int) + (i : Int),
              f (p + rows + (H : Int) + (i : Int))))).get? idx = some a →
          a.1 = (p + rows + (H : Int)) + (idx : Int) :=
        fun idx a hga => by rw [(keyedList_get? _ _ _ _ _ hga).2]
      have hkeyeq : p + (i : Int)
          = (p + rows + (H : Int)) + ((i - (H - rows.natAbs) : Nat) : Int) := by
        omega
      rw [hkeyeq]
      obtain ⟨idx, hfind⟩ := binary_search_by_key_find _ (p + rows + (H : Int))
        hkeys (i - (H - rows.natAbs)) (by simpa using ht)
      rw [hfind]
      dsimp only
      obtain ⟨a, hget, hkey⟩ := binary_search_by_key_some hfind
      obtain ⟨hidx, ha⟩ := keyedList_get? _ _ _ _ _ hget
      have hgd : ((List.range rows.natAbs).map
          (fun i : Nat => (p + rows + (H : Int) + (i : Int),
            f (p + rows + (H : Int) + (i : Int))))).getD idx (0, default)
          = a := by
        rw [List.getD_eq_getElem?_getD, ← List.get?_eq_getElem?, hget]
        rfl
      rw [hgd, ha]
      have : p + rows + (H : Int) + (idx : Int)
          = p + rows + (H : Int) + ((i - (H - rows.natAbs) : Nat) : Int) := by
        rw [ha] at hkey
        omega
      rw [this]

theorem scrolledBuffer_lookup_new (H : Nat) (p rows : Int) (f : Int → Int)
    (h : rows.natAbs < H) (i : Nat) (hi : i < H) :
    ({ scrolledBuffer H p rows f with
        scroll_position := ((p + rows : Int) : ℚ) }).get_visible_line i
      = some (f (p + rows + (i : Int))) := by
  obtain ⟨hpos', hsp, hsb, hlen, hact⟩ := scrolledBuffer_spec H p rows f h
  simp only [ScrollbackBuffer.get_visible_line, hpos', hlen, Int.floor_intCast]
  rw [if_pos (by constructor <;> omega)]
  rw [List.getD_eq_getElem?_getD,
    hact (p + rows + (i : Int) - (p + rows)).toNat (by omega)]
  simp only [Option.getD_some]
  have harg : p + rows + (((p + rows + (i : Int) - (p + rows)).toNat : Nat) : Int)
      = p + rows + (i : Int) := by omega
  rw [harg]


theorem scroll_then_lookup
    (H : Nat) (p rows : Int) (f : Int → Int) (h : rows.natAbs < H)
    (i : Nat) (hi : i < H) :
    (scrolledBuffer H p rows f).get_visible_line i = some (f (p + (i : Int)))
    ∧ ({ scrolledBuffer H p rows f with
          scroll_position := ((p + rows : Int) : ℚ) }).get_visible_line i
        = some (f (p + rows + (i : Int))) :=
  ⟨scrolledBuffer_lookup_old H p rows f h i hi,
    scrolledBuffer_lookup_new H p rows f h i hi⟩

/-- C1: in the unit-test scenario (height 5 seeded `[1,2,3,4,5]`, `scroll 2`,
`scroll_internal 0 5 2`, rows 3/4 refilled with 6/7) the visible lines are
`[1,2,3,4,5,6]` at `scroll_position = 0`, `[2,3,4,5,6,7]` at `1` and
`[3,4,5,6,7,None]` at `2`; and in general, for any `|rows| < height`, reading
at the old scroll position reproduces the pre-scroll content while reading at
the new `actual_position` reproduces the new content. -/
theorem scroll_visibility_spec :
    ((List.range 6).map exampleBuffer.get_visible_line
        = [some 1, some 2, some 3, some 4, some 5, some 6]
      ∧ (List.range 6).map
          ({ exampleBuffer with scroll_position := 1 }).get_visible_line
        = [some 2, some 3, some 4, some 5, some 6, some 7]
      ∧ (List.range 6).map
          ({ exampleBuffer with scroll_position := 2 }).get_visible_line
        = [some 3, some 4, some 5, some 6, some 7, none])
    ∧ (∀ (H : Nat) (p rows : Int) (f : Int → Int), rows.natAbs < H →
        ∀ i : Nat, i < H →
          (scrolledBuffer H p rows f).get_visible_line i
            = some (f (p + (i : Int)))
          ∧ ({ scrolledBuffer H p rows f with
                scroll_position := ((p + rows : Int) : ℚ) }).get_visible_line i
            = some (f (p + rows + (i : Int)))) := by
  refine ⟨⟨by decide, by decide, by decide⟩, ?_⟩
  intro H p rows f h i hi
  exact scroll_then_lookup H p rows f h i hi

/-- Witness for `scroll_visibility_spec` at `H = 5`, `p = 0`, `rows = 2`,
`f = (· + 1)`, `i = 1`. -/
theorem scroll_visibility_spec_witness :
    (scrolledBuffer 5 0 2 (fun k : Int => k + 1)).get_visible_line 1
      = some (2 : Int)
    ∧ ({ scrolledBuffer 5 0 2 (fun k : Int => k + 1) with
          scroll_position := (((0 : Int) + 2 : Int) : ℚ) }).get_visible_line 1
      = some (4 : Int) := by
  have h := scroll_visibility_spec.2 5 0 2 (fun k : Int => k + 1) (by decide) 1 (by decide)
  constructor
  · rw [h.1]; norm_num
  · rw [h.2]; norm_num

/-- C4 counterexample: a Scroll command spanning the full window width
(`left = 0`, `right = grid width = 8`) with `cols = 0` but `top = 1`
(`bottom = grid height = 5`) satisfies the claim's condition, yet the code's
guard also requires `top = 0`, so `actual_lines` is left completely
unchanged — even though rotating it by `rows = 2` would observably change
logical row 0. -/
theorem scroll_command_counterexample :
    c4Window.grid_width = 8 ∧ c4Window.grid_height = 5
    ∧ ((c4Window.handle_window_draw_command
          (WindowDrawCommand.scroll 1 5 0 8 2 0)).actual_lines
        = c4Window.actual_lines)
    ∧ (c4Window.actual_lines.rotate 2).get 0 ≠ c4Window.actual_lines.get 0 := by
  decide

/-- C4 (amended): a Scroll draw command rotates the `actual_lines` ring by
`rows` exactly when the scrolled region is the full grid — `top = 0`,
`bottom = grid height`, `left = 0`, `right = grid width` — and `cols = 0`;
any Scroll command failing any of these conditions (including a full-width
one with a nonzero `top` margin) leaves `actual_lines` unchanged. -/
theorem scroll_command_spec (w : RenderedWindow)
    (top bottom left right : Nat) (rows cols : Int) :
    (top = 0 ∧ bottom = w.grid_height ∧ left = 0 ∧ right = w.grid_width
        ∧ cols = 0 →
      w.handle_window_draw_command
          (WindowDrawCommand.scroll top bottom left right rows cols)
        = { w with actual_lines := w.actual_lines.rotate rows })
    ∧ (¬(top = 0 ∧ bottom = w.grid_height ∧ left = 0 ∧ right = w.grid_width
        ∧ cols = 0) →
      (w.handle_window_draw_command
          (WindowDrawCommand.scroll top bottom left right rows cols)).actual_lines
        = w.actual_lines) := by
  constructor
  · intro hc
    simp only [RenderedWindow.handle_window_draw_command, if_pos hc]
  · intro hc
    simp only [RenderedWindow.handle_window_draw_command, if_neg hc]

/-- Witness for `scroll_command_spec`: a full-width scroll on a fresh 8×5
window rotates, a partial-width one does not. -/
theorem scroll_command_spec_witness :
    (RenderedWindow.new 1 (0, 0) (8, 5)).handle_window_draw_command
        (WindowDrawCommand.scroll 0 5 0 8 2 0)
      = { RenderedWindow.new 1 (0, 0) (8, 5) with
          actual_lines := (RenderedWindow.new 1 (0, 0) (8, 5)).actual_lines.rotate 2 }
    ∧ ((RenderedWindow.new 1 (0, 0) (8, 5)).handle_window_draw_command
        (WindowDrawCommand.scroll 0 5 0 4 2 0)).actual_lines
      = (RenderedWindow.new 1 (0, 0) (8, 5)).actual_lines :=
  ⟨(scroll_command_spec (RenderedWindow.new 1 (0, 0) (8, 5)) 0 5 0 8 2 0).1
      (by decide),
    (scroll_command_spec (RenderedWindow.new 1 (0, 0) (8, 5)) 0 5 0 4 2 0).2
      (by decide)⟩

/-- C7 counterexample: a window sitting exactly at its start position
`(5,5)` (current = start), not hidden, receives a Position command with a new
destination `(7,7)`; the claim demands `t = 2.0` (no reset, since the window
is at its start position), but the code tests the start position against the
origin and resets `t` to 0. -/
theorem position_reset_counterexample :
    (RenderedWindow.new 3 (5, 5) (8, 10)).grid_current_position
      = (RenderedWindow.new 3 (5, 5) (8, 10)).grid_start_position
    ∧ (RenderedWindow.new 3 (5, 5) (8, 10)).hidden = false
    ∧ (RenderedWindow.new 3 (5, 5) (8, 10)).grid_destination ≠ ((7 : ℚ), (7 : ℚ))
    ∧ ((RenderedWindow.new 3 (5, 5) (8, 10)).handle_window_draw_command
        (WindowDrawCommand.position (7, 7) (8, 10) none
          WindowType.editor)).position_t = 0 := by
  refine ⟨rfl, rfl, by decide, by decide⟩

/-- C7 (amended): for a non-hidden window, a Position command with a new grid
position resets `t` to 0 (restarting from the current position) if and only
if the start position differs from the origin by more than `f32::EPSILON` in
x or y; otherwise `t` is set to the finished sentinel 2.0 and the start
position jumps to the new destination. -/
theorem position_reset_spec (w : RenderedWindow) (pos : ℚ × ℚ)
    (size : Nat × Nat) (anchor : Option Unit) (wt : WindowType)
    (hhid : w.hidden = false) (hne : w.grid_destination ≠ pos) :
    ((f32Epsilon < ratAbs w.grid_start_position.1
        ∨ f32Epsilon < ratAbs w.grid_start_position.2) →
      (w.handle_window_draw_command
          (WindowDrawCommand.position pos size anchor wt)).position_t = 0
      ∧ (w.handle_window_draw_command
          (WindowDrawCommand.position pos size anchor wt)).grid_start_position
        = w.grid_current_position)
    ∧ (¬(f32Epsilon < ratAbs w.grid_start_position.1
        ∨ f32Epsilon < ratAbs w.grid_start_position.2) →
      (w.handle_window_draw_command
          (WindowDrawCommand.position pos size anchor wt)).position_t = 2
      ∧ (w.handle_window_draw_command
          (WindowDrawCommand.position pos size anchor wt)).grid_start_position
        = pos)
    ∧ (w.handle_window_draw_command
        (WindowDrawCommand.position pos size anchor wt)).grid_destination
      = pos := by
  by_cases hcond : f32Epsilon < ratAbs w.grid_start_position.1
      ∨ f32Epsilon < ratAbs w.grid_start_position.2
  · refine ⟨fun _ => ?_, fun hn => absurd hcond hn, ?_⟩
    · constructor <;>
        simp [RenderedWindow.handle_window_draw_command, if_pos hne,
          if_pos hcond, hhid]
    · simp [RenderedWindow.handle_window_draw_command, if_pos hne,
        if_pos hcond, hhid]
  · refine ⟨fun hcc => absurd hcc hcond, fun _ => ?_, ?_⟩
    · constructor <;>
        simp [RenderedWindow.handle_window_draw_command, if_pos hne,
          if_neg hcond, hhid]
    · simp [RenderedWindow.handle_window_draw_command, if_pos hne,
        if_neg hcond, hhid]

/-- Witness for `position_reset_spec`: the fresh window at start `(5,5)`
(non-origin) with new destination `(7,7)` resets `t` to 0. -/
theorem position_reset_spec_witness :
    ((RenderedWindow.new 3 (5, 5) (8, 10)).handle_window_draw_command
        (WindowDrawCommand.position (7, 7) (8, 10) none
          WindowType.editor)).position_t = 0
    ∧ ((RenderedWindow.new 3 (5, 5) (8, 10)).handle_window_draw_command
        (WindowDrawCommand.position (7, 7) (8, 10) none
          WindowType.editor)).grid_destination = (7, 7) := by
  have h := position_reset_spec (RenderedWindow.new 3 (5, 5) (8, 10)) (7, 7)
    (8, 10) none WindowType.editor rfl (by decide)
  exact ⟨(h.1 (by decide)).1, h.2.2⟩

/-- C6 counterexample: an anchored editor window of width 12 on a grid
`[0,10]×[0,10]` is clamped so its left edge stays visible (`x = 0`), which
puts its right edge `x + 12 = 12` past the grid's right edge 10 — the claim
that `x + width ≤ right edge` holds "including when the window is wider than
the grid" is false. -/
theorem target_position_counterexample :
    c6Window.anchor_info ≠ none
    ∧ c6Rect.max_x
        < (c6Window.get_target_position c6Rect).1 + (c6Window.grid_width : ℚ) := by
  refine ⟨by decide, ?_⟩
  norm_num [c6Window, c6Rect, RenderedWindow.get_target_position,
    RenderedWindow.new, ratMin, ratMax]

theorem ratMin_le_right (a b : ℚ) : ratMin a b ≤ b := by
  unfold ratMin
  split
  · assumption
  · exact le_refl b

theorem ratMax_le {a b c : ℚ} (h1 : a ≤ c) (h2 : b ≤ c) : ratMax a b ≤ c := by
  unfold ratMax
  split
  · exact h2
  · exact h1

theorem le_ratMax_right (a b : ℚ) : b ≤ ratMax a b := by
  unfold ratMax
  split
  · exact le_refl b
  · exact le_of_lt (lt_of_not_le (by assumption))

/-- C6 (amended): for every anchored window, `get_target_position` keeps the
left edge at or right of the grid's left edge; the right edge stays within
the grid whenever the window is no wider than the grid; a message window's
bottom (with its effective height `grid_height - destination.y`) never
exceeds the grid's bottom edge; a non-message window's top stays within the
grid, and its bottom does too whenever it is no taller than the grid. -/
theorem target_position_clamp (w : RenderedWindow) (rect : GridRect)
    (h : w.anchor_info = some ()) :
    rect.min_x ≤ (w.get_target_position rect).1
    ∧ ((w.grid_width : ℚ) ≤ rect.max_x - rect.min_x →
        (w.get_target_position rect).1 + (w.grid_width : ℚ) ≤ rect.max_x)
    ∧ (w.window_type = WindowType.message →
        (w.get_target_position rect).2
          + ((w.grid_height : ℚ) - w.grid_destination.2) ≤ rect.max_y)
    ∧ (w.window_type ≠ WindowType.message →
        rect.min_y ≤ (w.get_target_position rect).2
        ∧ ((w.grid_height : ℚ) ≤ rect.max_y - rect.min_y →
            (w.get_target_position rect).2 + (w.grid_height : ℚ)
              ≤ rect.max_y)) := by
  have hna : ¬ w.anchor_info = none := by simp [h]
  simp only [RenderedWindow.get_target_position, if_neg hna]
  refine ⟨le_ratMax_right _ _, fun hw => ?_, fun hmsg => ?_, fun hmsg => ?_⟩
  · have h1 : ratMin (w.grid_destination.1 + rect.min_x)
        (rect.max_x - (w.grid_width : ℚ)) ≤ rect.max_x - (w.grid_width : ℚ) :=
      ratMin_le_right _ _
    have h2 : rect.min_x ≤ rect.max_x - (w.grid_width : ℚ) := by linarith
    have h3 := ratMax_le h1 h2
    linarith
  · rw [if_pos hmsg, if_neg (by simp [hmsg])]
    have h1 : ratMin (w.grid_destination.2 + rect.min_y)
        (rect.max_y - ((w.grid_height : ℚ) - w.grid_destination.2))
        ≤ rect.max_y - ((w.grid_height : ℚ) - w.grid_destination.2) :=
      ratMin_le_right _ _
    linarith
  · rw [if_neg hmsg, if_pos hmsg]
    refine ⟨le_ratMax_right _ _, fun hh => ?_⟩
    have h1 : ratMin (w.grid_destination.2 + rect.min_y)
        (rect.max_y - (w.grid_height : ℚ))
        ≤ rect.max_y - (w.grid_height : ℚ) := ratMin_le_right _ _
    have h2 : rect.min_y ≤ rect.max_y - (w.grid_height : ℚ) := by linarith
    have h3 := ratMax_le h1 h2
    linarith

/-- Witness for `target_position_clamp` at the concrete anchored window. -/
theorem target_position_clamp_witness :
    c6Rect.min_x ≤ (c6Window.get_target_position c6Rect).1
    ∧ ((c6Window.grid_width : ℚ) ≤ c6Rect.max_x - c6Rect.min_x →
        (c6Window.get_target_position c6Rect).1
          + (c6Window.grid_width : ℚ) ≤ c6Rect.max_x)
    ∧ (c6Window.window_type = WindowType.message →
        (c6Window.get_target_position c6Rect).2
          + ((c6Window.grid_height : ℚ) - c6Window.grid_destination.2)
          ≤ c6Rect.max_y)
    ∧ (c6Window.window_type ≠ WindowType.message →
        c6Rect.min_y ≤ (c6Window.get_target_position c6Rect).2
        ∧ ((c6Window.grid_height : ℚ) ≤ c6Rect.max_y - c6Rect.min_y →
            (c6Window.get_target_position c6Rect).2
              + (c6Window.grid_height : ℚ) ≤ c6Rect.max_y)) :=
  target_position_clamp c6Window c6Rect rfl

/-- C9: rebuilding an invalid line caches a background picture exactly when
some fragment drew a custom (non-default or debug) background, and a
foreground picture exactly when the foreground pass drew something — an
all-whitespace, no-decoration, default-background line caches neither. -/
theorem prepare_line_pictures (settings : RendererSettings) (l : Line)
    (h : l.is_valid = false) :
    ((RenderedWindow.prepare_line settings l).background_picture.isSome
      ↔ l.line_fragments.any
          (fun fr => (draw_background settings fr.style).custom_color) = true)
    ∧ ((RenderedWindow.prepare_line settings l).foreground_picture.isSome
      ↔ l.line_fragments.any (fun fr => draw_foreground fr) = true) := by
  have hnv : ¬ l.is_valid = true := by simp [h]
  constructor
  · simp only [RenderedWindow.prepare_line, if_neg hnv]
    by_cases hc : l.line_fragments.any
        (fun fr => (draw_background settings fr.style).custom_color) = true
    · simp [hc]
    · simp [hc]
  · simp only [RenderedWindow.prepare_line, if_neg hnv]
    by_cases hc : l.line_fragments.any (fun fr => draw_foreground fr) = true
    · simp [hc]
    · simp [hc]

/-- Witness for `prepare_line_pictures`: the all-whitespace line caches
neither picture. -/
theorem prepare_line_pictures_witness :
    (RenderedWindow.prepare_line exSettings wsLine).background_picture = none
    ∧ (RenderedWindow.prepare_line exSettings wsLine).foreground_picture = none
    ∧ (((RenderedWindow.prepare_line exSettings wsLine).background_picture.isSome
        ↔ wsLine.line_fragments.any
            (fun fr => (draw_background exSettings fr.style).custom_color)
              = true)
      ∧ ((RenderedWindow.prepare_line exSettings wsLine).foreground_picture.isSome
        ↔ wsLine.line_fragments.any (fun fr => draw_foreground fr) = true)) :=
  ⟨by decide, by decide, prepare_line_pictures exSettings wsLine (by decide)⟩

theorem infer_viewport_margins_id (w : RenderedWindow)
    (h : w.viewport_margins.inferred = false) :
    w.infer_viewport_margins = w := by
  unfold RenderedWindow.infer_viewport_margins
  rw [if_neg (by simp [h])]

/-- C2 counterexample: height 10, explicit margins 2/2 (inner height 6,
scrollback 12, `max_delta = 2`), pending delta `d = 3` and
`scroll_animation_far_lines = 3`: the far-scroll branch fires
(`|d| > max_delta`) and sets the position to `-far_lines * signum d = -3`,
which is exactly `-d` — contradicting "never at -d itself". -/
theorem flush_far_scroll_counterexample :
    c2Window.scrollback_lines.len - c2Window.grid_height
      < c2Window.scroll_delta.natAbs
    ∧ (RenderedWindow.flush c2Window c2Settings).map
        (fun w2 => w2.scroll_animation.position)
      = some (-((c2Window.scroll_delta : Int) : ℚ)) := by
  constructor
  · decide
  · norm_num [RenderedWindow.flush, infer_viewport_margins_id, c2Window,
      c2Settings, RenderedWindow.new, RenderedWindow.infer_viewport_margins]
    rw [if_pos (by decide)]
    refine ⟨_, rfl, ?_⟩
    rw [show Int.sign 3 = 1 from rfl]
    norm_num


/-- C2 (amended): flushing with unchanged (explicit) margins and a pending
delta `d ≠ 0`, with `max_delta = scrollback_lines.len - grid height`: when
`|d| > max_delta` the spring position becomes `-far_lines·signum d`, which
always lies in `[-far_lines, far_lines]` (and so equals `-d` only in the
corner case `far_lines = |d|`); otherwise the position becomes the old
position minus `d`, clamped to `[-max_delta, max_delta]`. -/
theorem flush_scroll_position_spec (w : RenderedWindow)
    (settings : RendererSettings) (d : Int)
    (hinf : w.viewport_margins.inferred = false)
    (hbot : w.viewport_margins.bottom ≤ w.actual_lines.len)
    (hinner : ((((w.actual_lines.len - w.viewport_margins.bottom : Nat) : Int)
        - ((w.viewport_margins.top : Nat) : Int)).toNat)
      = w.scrollback_lines.len / 2)
    (hd : w.scroll_delta = d) (hdne : d ≠ 0)
    (hheight : w.grid_height ≤ w.scrollback_lines.len) :
    ((w.flush settings).map (fun w2 => w2.scroll_animation.position)
      = some (
          if w.scrollback_lines.len - w.grid_height < d.natAbs then
            -((((min settings.scroll_animation_far_lines w.actual_lines.len
                : Nat) : Int) * d.sign : Int) : ℚ)
          else
            ratMax (-((w.scrollback_lines.len - w.grid_height : Nat) : ℚ))
              (ratMin (w.scroll_animation.position - (d : ℚ))
                ((w.scrollback_lines.len - w.grid_height : Nat) : ℚ))))
    ∧ (-(((min settings.scroll_animation_far_lines w.actual_lines.len
          : Nat) : Int) : ℚ)
        ≤ -((((min settings.scroll_animation_far_lines w.actual_lines.len
            : Nat) : Int) * d.sign : Int) : ℚ)
      ∧ -((((min settings.scroll_animation_far_lines w.actual_lines.len
            : Nat) : Int) * d.sign : Int) : ℚ)
        ≤ (((min settings.scroll_animation_far_lines w.actual_lines.len
            : Nat) : Int) : ℚ)) := by
  constructor
  · unfold RenderedWindow.flush
    rw [infer_viewport_margins_id w hinf]
    rw [if_neg (by omega)]
    rw [if_neg (by rw [hinner]; exact fun hne => absurd rfl hne)]
    rw [hd]
    simp only [RingBuffer.len_clone_from_iter, RingBuffer.len_rotate]
    rw [if_pos hdne, if_neg (by omega)]
    by_cases hfar : w.scrollback_lines.len - w.grid_height < d.natAbs
    · rw [if_pos hfar, if_pos hfar]
      rfl
    · rw [if_neg hfar, if_neg hfar]
      rfl
  · have hmin : (0 : ℚ) ≤ ((settings.scroll_animation_far_lines : ℚ)
        ⊓ (w.actual_lines.len : ℚ)) :=
      le_min (by positivity) (by positivity)
    have hA : (0 : ℚ) ≤ (settings.scroll_animation_far_lines : ℚ) := by
      positivity
    have hB : (0 : ℚ) ≤ (w.actual_lines.len : ℚ) := by positivity
    rcases Int.lt_or_lt_of_ne hdne with hneg | hpos
    · rw [Int.sign_eq_neg_one_of_neg hneg]
      constructor <;> · push_cast; linarith
    · rw [Int.sign_eq_one_of_pos hpos]
      constructor <;> · push_cast; linarith

/-- Witness for `flush_scroll_position_spec` at the concrete far-scroll
window. -/
theorem flush_scroll_position_spec_witness :
    ((c2Window.flush c2Settings).map (fun w2 => w2.scroll_animation.position)
      = some (
          if c2Window.scrollback_lines.len - c2Window.grid_height
              < (3 : Int).natAbs then
            -((((min c2Settings.scroll_animation_far_lines
                c2Window.actual_lines.len : Nat) : Int) * (3 : Int).sign
                : Int) : ℚ)
          else
            ratMax (-((c2Window.scrollback_lines.len - c2Window.grid_height
                : Nat) : ℚ))
              (ratMin (c2Window.scroll_animation.position - ((3 : Int) : ℚ))
                ((c2Window.scrollback_lines.len - c2Window.grid_height
                  : Nat) : ℚ))))
    ∧ (-(((min c2Settings.scroll_animation_far_lines
          c2Window.actual_lines.len : Nat) : Int) : ℚ)
        ≤ -((((min c2Settings.scroll_animation_far_lines
            c2Window.actual_lines.len : Nat) : Int) * (3 : Int).sign
            : Int) : ℚ)
      ∧ -((((min c2Settings.scroll_animation_far_lines
            c2Window.actual_lines.len : Nat) : Int) * (3 : Int).sign
            : Int) : ℚ)
        ≤ (((min c2Settings.scroll_animation_far_lines
            c2Window.actual_lines.len : Nat) : Int) : ℚ)) :=
  flush_scroll_position_spec c2Window c2Settings 3 rfl (by decide) (by decide)
    rfl (by decide) (by decide)

theorem prepare_line_valid (settings : RendererSettings) (l : Line) :
    (RenderedWindow.prepare_line settings l).is_valid = true := by
  by_cases h : l.is_valid <;> simp [RenderedWindow.prepare_line, h]

theorem prepare_line_of_valid (settings : RendererSettings) (l : Line)
    (h : l.is_valid = true) :
    RenderedWindow.prepare_line settings l = l := by
  simp [RenderedWindow.prepare_line, h]

theorem prepare_line_idem (settings : RendererSettings) (l : Line) :
    RenderedWindow.prepare_line settings (RenderedWindow.prepare_line settings l)
      = RenderedWindow.prepare_line settings l :=
  prepare_line_of_valid settings _ (prepare_line_valid settings l)

theorem foldPrepare_get? (settings : RendererSettings) :
    ∀ (slots : List (Option Nat)) (store : List Line) (i : Nat),
      (RenderedWindow.foldPrepare settings slots store).get? i
        = if (some i) ∈ slots then
            (store.get? i).map (RenderedWindow.prepare_line settings)
          else store.get? i := by
  intro slots
  induction slots with
  | nil =>
    intro store i
    simp [RenderedWindow.foldPrepare]
  | cons s rest ih =>
    intro store i
    cases s with
    | none =>
      have hstep : RenderedWindow.foldPrepare settings (none :: rest) store
          = RenderedWindow.foldPrepare settings rest store := rfl
      rw [hstep, ih]
      by_cases hm : (some i) ∈ rest
      · rw [if_pos hm, if_pos (List.mem_cons_of_mem _ hm)]
      · rw [if_neg hm, if_neg (by
          intro hmem
          rcases List.mem_cons.mp hmem with hh | hh
          · exact absurd hh (by simp)
          · exact hm hh)]
    | some k =>
      cases hk : store.get? k with
      | none =>
        have hk2 : store[k]? = none := by
          rw [← List.get?_eq_getElem?]; exact hk
        have hstep : RenderedWindow.foldPrepare settings (some k :: rest) store
            = RenderedWindow.foldPrepare settings rest store := by
          simp [RenderedWindow.foldPrepare, hk2]
        rw [hstep, ih]
        by_cases hm : (some i) ∈ rest
        · rw [if_pos hm, if_pos (List.mem_cons_of_mem _ hm)]
        · rw [if_neg hm]
          by_cases hik : i = k
          · subst hik
            rw [if_pos (List.mem_cons_self _ _), hk]
            rfl
          · rw [if_neg (by
              intro hmem
              rcases List.mem_cons.mp hmem with hh | hh
              · exact hik (Option.some.inj hh)
              · exact hm hh)]
      | some l =>
        have hklen : k < store.length := (List.get?_eq_some.mp hk).1
        have hk2 : store[k]? = some l := by
          rw [← List.get?_eq_getElem?]; exact hk
        have hstep : RenderedWindow.foldPrepare settings (some k :: rest) store
            = RenderedWindow.foldPrepare settings rest
                (store.set k (RenderedWindow.prepare_line settings l)) := by
          simp [RenderedWindow.foldPrepare, hk2]
        rw [hstep, ih]
        by_cases hm : (some i) ∈ rest
        · rw [if_pos hm, if_pos (List.mem_cons_of_mem _ hm)]
          by_cases hik : k = i
          · subst hik
            rw [List.get?_eq_getElem?, List.getElem?_set, if_pos rfl,
              if_pos hklen, hk]
            simp only [Option.map_some']
            rw [prepare_line_idem]
          · rw [List.get?_eq_getElem?, List.getElem?_set, if_neg hik,
              ← List.get?_eq_getElem?]
        · rw [if_neg hm]
          by_cases hik : i = k
          · subst hik
            rw [if_pos (List.mem_cons_self _ _), hk,
              List.get?_eq_getElem?, List.getElem?_set, if_pos rfl,
              if_pos hklen]
            rfl
          · rw [if_neg (by
              intro hmem
              rcases List.mem_cons.mp hmem with hh | hh
              · exact hik (Option.some.inj hh)
              · exact hm hh)]
            rw [List.get?_eq_getElem?, List.getElem?_set,
              if_neg (fun hh => hik hh.symm), ← List.get?_eq_getElem?]

theorem foldPrepare_idem (settings : RendererSettings)
    (slots : List (Option Nat)) (store : List Line) :
    RenderedWindow.foldPrepare settings slots
        (RenderedWindow.foldPrepare settings slots store)
      = RenderedWindow.foldPrepare settings slots store := by
  apply List.ext_getElem?
  intro i
  rw [← List.get?_eq_getElem?, ← List.get?_eq_getElem?]
  rw [foldPrepare_get?, foldPrepare_get?]
  by_cases hm : (some i) ∈ slots
  · simp only [if_pos hm]
    cases store.get? i with
    | none => rfl
    | some l =>
      simp only [Option.map_some']
      rw [prepare_line_idem]
  · simp only [if_neg hm]

/-- C8: a row's cache entry becomes invalid exactly when a DrawLine command
replaces its fragments (DrawLine stores a fresh invalid entry for the row;
no other draw command touches the line store), and `prepare_lines` is
idempotent: a second call with no intervening DrawLine rebuilds nothing and
leaves every cached picture identical. -/
theorem line_cache_spec (settings : RendererSettings) :
    (∀ (w : RenderedWindow) (row : Nat) (frags : List LineFragment),
      ((w.handle_window_draw_command
          (WindowDrawCommand.draw_line row frags)).lines.length
        = w.lines.length + 1)
      ∧ (((w.handle_window_draw_command
          (WindowDrawCommand.draw_line row frags)).lines.get?
            w.lines.length).map (fun l => l.is_valid) = some false)
      ∧ (((w.handle_window_draw_command
          (WindowDrawCommand.draw_line row frags)).lines.get?
            w.lines.length).map (fun l => l.line_fragments) = some frags)
      ∧ ((w.handle_window_draw_command
          (WindowDrawCommand.draw_line row frags)).actual_lines
        = w.actual_lines.set (row : Int) (some w.lines.length)))
    ∧ (∀ (w : RenderedWindow) (c : WindowDrawCommand),
        (∀ row frags, c ≠ WindowDrawCommand.draw_line row frags) →
        (w.handle_window_draw_command c).lines = w.lines)
    ∧ (∀ w : RenderedWindow,
        RenderedWindow.prepare_lines settings
            (RenderedWindow.prepare_lines settings w)
          = RenderedWindow.prepare_lines settings w) := by
  refine ⟨?_, ?_, ?_⟩
  · intro w row frags
    refine ⟨?_, ?_, ?_, ?_⟩
    · simp [RenderedWindow.handle_window_draw_command]
    · simp only [RenderedWindow.handle_window_draw_command]
      rw [List.get?_eq_getElem?, List.getElem?_append_right (le_refl _)]
      simp only [Nat.sub_self, List.getElem?_cons_zero, Option.map_some']
      by_cases hb : w.viewport_margins.inferred <;> simp [hb]
    · simp only [RenderedWindow.handle_window_draw_command]
      rw [List.get?_eq_getElem?, List.getElem?_append_right (le_refl _)]
      simp only [Nat.sub_self, List.getElem?_cons_zero, Option.map_some']
      by_cases hb : w.viewport_margins.inferred <;> simp [hb]
    · simp only [RenderedWindow.handle_window_draw_command]
  · intro w c hne
    cases c
    · simp only [RenderedWindow.handle_window_draw_command]
      repeat' split
      all_goals rfl
    · exact absurd rfl (hne _ _)
    · simp only [RenderedWindow.handle_window_draw_command]
      split <;> rfl
    · rfl
    · simp only [RenderedWindow.handle_window_draw_command]
      split <;> rfl
    · rfl
    · rfl
    · rfl
    · rfl
  · intro w
    by_cases h0 : w.grid_height = 0
    · simp [RenderedWindow.prepare_lines, h0]
    · have h1 : RenderedWindow.prepare_lines settings w
          = { w with lines :=
              (RenderedWindow.foldPrepare settings
                (RenderedWindow.prepareVisitedSlots w) w.lines) } := by
        simp [RenderedWindow.prepare_lines, h0]
      rw [h1]
      have h2 : RenderedWindow.prepare_lines settings
          { w with lines :=
              (RenderedWindow.foldPrepare settings
                (RenderedWindow.prepareVisitedSlots w) w.lines) }
          = { w with lines :=
              (RenderedWindow.foldPrepare settings
                (RenderedWindow.prepareVisitedSlots w)
                (RenderedWindow.foldPrepare settings
                  (RenderedWindow.prepareVisitedSlots w) w.lines)) } := by
        simp only [RenderedWindow.prepare_lines, h0, if_neg]
        rfl
      rw [h2, foldPrepare_idem]

/-- Witness for `line_cache_spec`: fresh 8×5 window, DrawLine at row 2, the
Clear command, and double `prepare_lines`. -/
theorem line_cache_spec_witness :
    (((RenderedWindow.new 7 (0, 0) (8, 5)).handle_window_draw_command
        (WindowDrawCommand.draw_line 2 wsLine.line_fragments)).lines.length
      = (RenderedWindow.new 7 (0, 0) (8, 5)).lines.length + 1
      ∧ (((RenderedWindow.new 7 (0, 0) (8, 5)).handle_window_draw_command
          (WindowDrawCommand.draw_line 2 wsLine.line_fragments)).lines.get?
            (RenderedWindow.new 7 (0, 0) (8, 5)).lines.length).map
          (fun l => l.is_valid) = some false
      ∧ (((RenderedWindow.new 7 (0, 0) (8, 5)).handle_window_draw_command
          (WindowDrawCommand.draw_line 2 wsLine.line_fragments)).lines.get?
            (RenderedWindow.new 7 (0, 0) (8, 5)).lines.length).map
          (fun l => l.line_fragments) = some wsLine.line_fragments
      ∧ ((RenderedWindow.new 7 (0, 0) (8, 5)).handle_window_draw_command
          (WindowDrawCommand.draw_line 2 wsLine.line_fragments)).actual_lines
        = (RenderedWindow.new 7 (0, 0) (8, 5)).actual_lines.set ((2 : Nat) : Int)
            (some (RenderedWindow.new 7 (0, 0) (8, 5)).lines.length))
    ∧ (((RenderedWindow.new 7 (0, 0) (8, 5)).handle_window_draw_command
        WindowDrawCommand.clear).lines = (RenderedWindow.new 7 (0, 0) (8, 5)).lines)
    ∧ (RenderedWindow.prepare_lines exSettings
        (RenderedWindow.prepare_lines exSettings (RenderedWindow.new 7 (0, 0) (8, 5)))
      = RenderedWindow.prepare_lines exSettings (RenderedWindow.new 7 (0, 0) (8, 5))) :=
  ⟨(line_cache_spec exSettings).1 (RenderedWindow.new 7 (0, 0) (8, 5)) 2
      wsLine.line_fragments,
    (line_cache_spec exSettings).2.1 (RenderedWindow.new 7 (0, 0) (8, 5))
      WindowDrawCommand.clear (by intro row frags h; cases h),
    (line_cache_spec exSettings).2.2 (RenderedWindow.new 7 (0, 0) (8, 5))⟩

theorem RingBuffer.len_foldl_set {α : Type} (idxs : List Int)
    (rb : RingBuffer α) (v : α) :
    (idxs.foldl (fun acc i => acc.set i v) rb).len = rb.len := by
  induction idxs generalizing rb with
  | nil => rfl
  | cons i rest ih => rw [List.foldl_cons, ih, RingBuffer.len_set]

theorem infer_viewport_margins_scrollback (w : RenderedWindow) :
    (w.infer_viewport_margins).scrollback_lines = w.scrollback_lines := by
  unfold RenderedWindow.infer_viewport_margins
  split <;> rfl

theorem infer_viewport_margins_actual (w : RenderedWindow) :
    (w.infer_viewport_margins).actual_lines = w.actual_lines := by
  unfold RenderedWindow.infer_viewport_margins
  split <;> rfl

/-- Any successful `flush` establishes the scrollback-length invariant,
provided the incoming scrollback length is even (every reachable state has an
even one). -/
theorem flush_sb_invariant (w : RenderedWindow) (settings : RendererSettings)
    (w' : RenderedWindow) (hev : Even w.scrollback_lines.len)
    (h : w.flush settings = some w') :
    w'.scrollback_lines.len
      = 2 * (w'.actual_lines.len - w'.viewport_margins.top
          - w'.viewport_margins.bottom) := by
  have hev1 : Even (w.infer_viewport_margins).scrollback_lines.len := by
    rw [infer_viewport_margins_scrollback]; exact hev
  simp only [RenderedWindow.flush] at h
  split at h
  · exact absurd h (by simp)
  · split at h
    · -- resize branch
      obtain rfl := (Option.some.inj h).symm
      simp only [RingBuffer.len_clone_from_iter, RingBuffer.len_resize]
      omega
    · rename_i hnr0
      have hnr : ((((w.infer_viewport_margins.actual_lines.len
            - w.infer_viewport_margins.viewport_margins.bottom : Nat) : Int)
          - ((w.infer_viewport_margins.viewport_margins.top : Nat) : Int)).toNat)
          = w.infer_viewport_margins.scrollback_lines.len / 2 :=
        not_ne_iff.mp hnr0
      obtain ⟨k, hk⟩ := hev1
      split at h
      · split at h
        · exact absurd h (by simp)
        · split at h
          · -- far-scroll branch
            obtain rfl := (Option.some.inj h).symm
            simp only [RingBuffer.len_foldl_set, RingBuffer.len_clone_from_iter,
              RingBuffer.len_rotate]
            omega
          · -- clamped branch
            obtain rfl := (Option.some.inj h).symm
            simp only [RingBuffer.len_clone_from_iter, RingBuffer.len_rotate]
            omega
      · -- no pending delta
        obtain rfl := (Option.some.inj h).symm
        simp only [RingBuffer.len_clone_from_iter, RingBuffer.len_rotate]
        omega

/-- Every draw command keeps the scrollback length even. -/
theorem cmd_preserves_even (w : RenderedWindow) (c : WindowDrawCommand)
    (hev : Even w.scrollback_lines.len) :
    Even (w.handle_window_draw_command c).scrollback_lines.len := by
  cases c
  · simp only [RenderedWindow.handle_window_draw_command]
    repeat' split
    all_goals
      simp only [RingBuffer.len_clone_from_iter, RingBuffer.len_resize]
      exact even_two_mul _
  · exact hev
  · simp only [RenderedWindow.handle_window_draw_command]
    split
    · simpa using hev
    · exact hev
  · simpa [RenderedWindow.handle_window_draw_command] using hev
  · simp only [RenderedWindow.handle_window_draw_command]
    split
    · simpa using hev
    · exact hev
  · exact hev
  · exact hev
  · exact hev
  · exact hev

theorem execEvent_even (w : RenderedWindow) (e : WindowEvent)
    (w' : RenderedWindow) (hev : Even w.scrollback_lines.len)
    (h : execEvent w e = some w') : Even w'.scrollback_lines.len := by
  cases e with
  | cmd c =>
    obtain rfl := (Option.some.inj h).symm
    exact cmd_preserves_even w c hev
  | flush s =>
    rw [flush_sb_invariant w s w' hev h]
    exact even_two_mul _

theorem execEvents_even :
    ∀ (evs : List WindowEvent) (w w' : RenderedWindow),
      Even w.scrollback_lines.len → execEvents w evs = some w' →
      Even w'.scrollback_lines.len := by
  intro evs
  induction evs with
  | nil =>
    intro w w' hev h
    obtain rfl := (Option.some.inj h).symm
    exact hev
  | cons e rest ih =>
    intro w w' hev h
    simp only [execEvents] at h
    cases he : execEvent w e with
    | none => rw [he] at h; exact absurd h (by simp)
    | some wm =>
      rw [he] at h
      exact ih wm w' (execEvent_even w e wm hev he) h

theorem execEvents_append_last :
    ∀ (evs : List WindowEvent) (w : RenderedWindow) (e : WindowEvent)
      (w' : RenderedWindow),
      execEvents w (evs ++ [e]) = some w' →
      ∃ wm, execEvents w evs = some wm ∧ execEvent wm e = some w' := by
  intro evs
  induction evs with
  | nil =>
    intro w e w' h
    simp only [List.nil_append, execEvents] at h
    cases he : execEvent w e with
    | none => rw [he] at h; exact absurd h (by simp)
    | some wm =>
      rw [he] at h
      obtain rfl := (Option.some.inj h).symm
      exact ⟨w, rfl, he⟩
  | cons e0 rest ih =>
    intro w e w' h
    simp only [List.cons_append, execEvents] at h
    cases he : execEvent w e0 with
    | none => rw [he] at h; exact absurd h (by simp)
    | some wm =>
      rw [he] at h
      obtain ⟨wmid, h1, h2⟩ := ih wm e w' h
      refine ⟨wmid, ?_, h2⟩
      simp only [execEvents, he]
      exact h1

/-- C3: after every successful `flush`, from any sequence of draw commands
and flushes starting at a fresh window, the scrollback ring length equals
twice the inner height:
`scrollback_lines.len = 2 * (actual_lines.len - top - bottom)`. -/
theorem scrollback_length_invariant (id : Nat) (pos : ℚ × ℚ)
    (size : Nat × Nat) (evs : List WindowEvent)
    (settings : RendererSettings) (w' : RenderedWindow)
    (h : execEvents (RenderedWindow.new id pos size)
        (evs ++ [WindowEvent.flush settings]) = some w') :
    w'.scrollback_lines.len
      = 2 * (w'.actual_lines.len - w'.viewport_margins.top
          - w'.viewport_margins.bottom) := by
  obtain ⟨wm, hmid, hfl⟩ := execEvents_append_last evs _ _ _ h
  have hev0 : Even (RenderedWindow.new id pos size).scrollback_lines.len := by
    simp only [RenderedWindow.new, RingBuffer.len_new]
    exact even_two_mul _
  exact flush_sb_invariant wm settings w'
    (execEvents_even evs _ _ hev0 hmid) hfl

/-- Witness for `scrollback_length_invariant`: margins 1/1 then flush on a
fresh 8×5 window (the flush resizes the scrollback to 2·3). -/
theorem scrollback_length_invariant_witness :
    c3Result.scrollback_lines.len
      = 2 * (c3Result.actual_lines.len - c3Result.viewport_margins.top
          - c3Result.viewport_margins.bottom) :=
  scrollback_length_invariant 9 (0, 0) (8, 5)
    c3Events exSettings c3Result (by decide)

end Neovide
